import Mathlib

/-!
# Verification of the slime auto-battler simulation core

A shallow embedding of the combat/merge/stun simulation systems of the
`gamble-gamble` repository (Bevy ECS, Rust), together with proofs about the
claims of its specification.

Conventions of the embedding:
* `f32` arithmetic is modelled with exact rationals (`ℚ`); square roots are
  modelled by `qSqrt` (exact on perfect rational squares). Theorems that depend
  on the square root being exact carry that as an explicit hypothesis.
* Bevy entities are natural-number ids; a world is an association list from
  ids to component records. A component that may be absent is an `Option`
  field (presence/absence of marker components is a `Bool` or `Option`).
* Random draws (`rand::thread_rng`) are passed in as explicit parameters, so
  theorems quantify over every possible outcome of the generator.
* Deferred `Commands` are modelled faithfully: systems first read a snapshot,
  then produce a command list that is applied afterwards, exactly like Bevy
  applies command queues at the end of the system.
-/

namespace Gamble

set_option maxRecDepth 40000

/-- Entity ids (Bevy `Entity`). -/
abbrev EntityId := Nat

/-- Embeds `bevy::math::Vec3`, with exact rational coordinates. The `z` coordinate is
used for draw order by the game and is carried along faithfully. -/
structure Vec3 where
  x : ℚ
  y : ℚ
  z : ℚ
deriving DecidableEq, Repr

namespace Vec3

def add (a b : Vec3) : Vec3 := ⟨a.x + b.x, a.y + b.y, a.z + b.z⟩

def sub (a b : Vec3) : Vec3 := ⟨a.x - b.x, a.y - b.y, a.z - b.z⟩

def neg (a : Vec3) : Vec3 := ⟨-a.x, -a.y, -a.z⟩

def smul (c : ℚ) (a : Vec3) : Vec3 := ⟨c * a.x, c * a.y, c * a.z⟩

def zero : Vec3 := ⟨0, 0, 0⟩

/-- Squared Euclidean length (exact). -/
def sqLen (a : Vec3) : ℚ := a.x ^ 2 + a.y ^ 2 + a.z ^ 2

end Vec3

/-- Integer square root by bounded search (structural, so that concrete
witnesses evaluate inside the kernel). -/
def natSqrt (n : Nat) : Nat :=
  ((List.range (n + 1)).filter (fun k => k * k ≤ n)).foldl max 0

/-- Model of `f32::sqrt` on nonnegative rationals: exact whenever numerator and
denominator are perfect squares, an underapproximation otherwise. All claims
about lengths are stated either algebraically (squared) or under the explicit
hypothesis that the square root is exact on the given input. -/
def qSqrt (q : ℚ) : ℚ := (natSqrt q.num.toNat : ℚ) / (natSqrt q.den : ℚ)

/-- Embeds `Vec3::length` — Euclidean length via the modelled square root. -/
def Vec3.length (a : Vec3) : ℚ := qSqrt a.sqLen

/-- Embeds `Vec3::normalize` — `a / a.length()`. -/
def Vec3.normalize (a : Vec3) : Vec3 := Vec3.smul (1 / a.length) a

/-- Embeds `a.distance b = (a - b).length()`. -/
def Vec3.distance (a b : Vec3) : ℚ := (a.sub b).length

/-- Embeds `pick_target.rs`: `enum Team { Player, Enemy }`. -/
inductive Team where
  | Player
  | Enemy
deriving DecidableEq, Repr

/-- Embeds `pick_target.rs`: `enum PickTargetStrategy { Close }`. -/
inductive PickTargetStrategy where
  | Close
deriving DecidableEq, Repr

/-- Embeds `animation.rs`: `enum AnimationType`. The `IceImpact` and `IcebergIdle`
variants are referenced by `combat.rs` / `spawn_slimes.rs` but missing from the
checked-in `animation.rs`; they are included here from those call sites. -/
inductive AnimationType where
  | SlimeJumpIdle
  | SlimeAttack
  | SlimeMoveSmallJump
  | SlimeHurt
  | SlimeDeath
  | BigSlimeJumpIdle
  | BigSlimeAttack
  | BigSlimeDeath
  | EnemySlimeJumpIdle
  | EnemySlimeAttack
  | EnemySlimeMoveSmallJump
  | EnemySlimeHurt
  | EnemySlimeDeath
  | EnemyBigSlimeJumpIdle
  | EnemyBigSlimeAttack
  | EnemyBigSlimeDeath
  | IceImpact
  | IcebergIdle
deriving DecidableEq, Repr

/-- Embeds `animation.rs`: `struct AnimationState`. -/
structure AnimationState where
  frameIndex : Nat
  frameTimer : ℚ
  frameDuration : ℚ
  totalFrames : Nat
  looping : Bool
  finished : Bool
deriving DecidableEq, Repr

/-- Embeds `AnimationState::new(frame_duration, total_frames, looping)`. -/
def AnimationState.new (frameDuration : ℚ) (totalFrames : Nat) (looping : Bool) :
    AnimationState :=
  { frameIndex := 0, frameTimer := 0, frameDuration := frameDuration,
    totalFrames := totalFrames, looping := looping, finished := false }

/-- Embeds `bevy::time::Timer` (only the elapsed/duration state the game observes).
`TimerMode::Once` caps `elapsed` at `duration`. -/
structure Timer where
  elapsed : ℚ
  duration : ℚ
deriving DecidableEq, Repr

namespace Timer

/-- Embeds `Timer::from_seconds(d, TimerMode::Once)`. -/
def fromSeconds (d : ℚ) : Timer := { elapsed := 0, duration := d }

/-- Embeds `Timer::tick(delta)` for a `TimerMode::Once` timer: elapsed time is capped
at the duration. -/
def tick (t : Timer) (delta : ℚ) : Timer :=
  { t with elapsed := min (t.elapsed + delta) t.duration }

/-- Embeds `Timer::finished()` (also `is_finished`). -/
def finished (t : Timer) : Bool := t.duration ≤ t.elapsed

/-- Embeds `Timer::just_finished()` after a `tick delta`: the tick crossed the
duration. -/
def justFinishedAfter (t : Timer) (delta : ℚ) : Bool :=
  decide (t.elapsed < t.duration) && decide (t.duration ≤ t.elapsed + delta)

end Timer

/-- Embeds `combat.rs`: `struct AttackEffect`. `damage` is an `i32` (ℤ); the chance
and distances are `f32` (ℚ). -/
structure AttackEffect where
  damage : ℤ
  knockback : ℚ
  stunChance : ℚ
  stunDuration : ℚ
deriving DecidableEq, Repr

/-- Embeds `combat.rs`: `struct Attack`. -/
structure Attack where
  animation : AnimationType
  hitFrame : Nat
  onHitEffect : AttackEffect
  range : ℚ
deriving DecidableEq, Repr

/-- Embeds `combat.rs`: `struct ActiveAttack` — transient marker for a unit that is
mid-attack. -/
structure ActiveAttack where
  attack : Attack
  target : EntityId
  hitTriggered : Bool
deriving DecidableEq, Repr

/-- Embeds `special_abilities.rs`: `struct PreMerging` (telegraph phase). -/
structure PreMerging where
  timer : Timer
  partner : EntityId
  meetingPoint : Vec3
deriving DecidableEq, Repr

/-- Embeds `special_abilities.rs`: `struct Merging` (walk phase). -/
structure Merging where
  partner : EntityId
  meetingPoint : Vec3
deriving DecidableEq, Repr

/-- One simulated unit: the component set of a slime entity. `Option`/`Bool`
fields model presence or absence of the corresponding Bevy component.
`children` is `some l` exactly when the entity has a `Children` component
(despawning the last child removes the component). -/
structure Slime where
  pos : Vec3
  team : Team
  strategy : Option PickTargetStrategy
  target : Option EntityId
  health : Option ℤ
  speed : Option ℚ
  knownAttacks : Option (List Attack)
  activeAttack : Option ActiveAttack
  animState : Option AnimationState
  animType : Option AnimationType
  idleAnim : Option AnimationType
  deathAnim : Option AnimationType
  inert : Bool
  stunTimer : Option Timer
  dying : Bool
  preMerging : Option PreMerging
  merging : Option Merging
  mergedSlime : Bool
  hasSprite : Bool
  iceVfx : Bool
  children : Option (List EntityId)
deriving DecidableEq, Repr

/-- A baseline slime with no optional components, used to build test worlds. -/
def Slime.base (pos : Vec3) (team : Team) : Slime :=
  { pos := pos, team := team, strategy := none, target := none, health := none,
    speed := none, knownAttacks := none, activeAttack := none, animState := none,
    animType := none, idleAnim := none, deathAnim := none, inert := false,
    stunTimer := none, dying := false, preMerging := none, merging := none,
    mergedSlime := false, hasSprite := false, iceVfx := false, children := none }

/-- The entity store: an association list from entity ids to component sets.
Bevy guarantees unique ids; well-formed worlds have `Nodup` keys. -/
abbrev World := List (EntityId × Slime)

namespace World

/-- Look up an entity (Bevy `Query::get` on an all-components query). -/
def get : World → EntityId → Option Slime
  | [], _ => none
  | p :: tl, e => if p.1 = e then some p.2 else get tl e

/-- Update entity `e` with `f` if present (a Bevy command on a despawned
entity is a no-op). -/
def update : World → EntityId → (Slime → Slime) → World
  | [], _, _ => []
  | p :: tl, e, f => (if p.1 = e then (p.1, f p.2) else p) :: update tl e f

/-- Despawn a set of entities. -/
def despawnAll (w : World) (es : List EntityId) : World :=
  w.filter (fun p => ¬ p.1 ∈ es)

/-- Apply a per-entity transformation to every entity (a Bevy system that
mutates each queried entity exactly once, with deferred self-inserts). -/
def mapEntities (f : EntityId → Slime → Slime) (w : World) : World :=
  w.map (fun p => (p.1, f p.1 p.2))

end World

/-- Embeds `Iterator::min_by` over candidates, comparing distance from `origin`
(pick_target.rs:62-70). Rust's `min_by` keeps the first of equally-minimal
elements, i.e. it replaces the accumulator only when a strictly smaller
element appears. Exact `f32` distance comparisons are modelled by comparing
exact squared distances, which induces the same order on nonnegative reals. -/
def minByDist (origin : Vec3) : List (EntityId × Vec3) → Option (EntityId × Vec3)
  | [] => none
  | c :: cs =>
      some (cs.foldl
        (fun acc x =>
          if Vec3.sqLen (x.2.sub origin) < Vec3.sqLen (acc.2.sub origin) then x
          else acc)
        c)

/-- The `PickTargetStrategy::Close` arm of `pick_target_system`
(pick_target.rs:45-72): filter the candidate pool to the opposing team,
randomly sample up to 3 of them (`choose_multiple`, modelled by the `sample`
parameter supplied by the caller), then pick the minimum-distance one among
the sample. -/
def pickTargetChoice (sample : List (EntityId × Vec3) → List (EntityId × Vec3))
    (pos : Vec3) (team : Team) (candidates : List (EntityId × Team × Vec3)) :
    Option EntityId :=
  let enemies :=
    (candidates.filter (fun c => c.2.1 ≠ team)).map (fun c => (c.1, c.2.2))
  (minByDist pos (sample enemies)).map Prod.fst

/-- Embeds `pick_target.rs::pick_target_system`. The query is
`(Entity, &PickTargetStrategy, &Team, &Transform), Without<TargetEntity>` —
note that it has no `Without<Inert>` filter. The candidate pool is every
entity (`(Entity, &Team, &Transform)`); in this model every live slime has a
team and a transform.

The checked-in loop body declares `let mut target_entity;` and never assigns
it, then inserts `TargetEntity(target_entity)` unconditionally — that does not
compile. This embedding inserts the computed choice only when it is `Some`,
following the working predecessor of the same system kept (commented out) in
health.rs:110-112. -/
def pickTargetSystem
    (sample : EntityId → List (EntityId × Vec3) → List (EntityId × Vec3))
    (w : World) : World :=
  let candidates := w.map (fun p => (p.1, p.2.team, p.2.pos))
  World.mapEntities
    (fun e s =>
      if s.strategy.isSome ∧ s.target = none then
        match pickTargetChoice (sample e) s.pos s.team candidates with
        | some t => { s with target := some t }
        | none => s
      else s)
    w

/-- Embeds `movement.rs::move_to_target_system` (movement.rs:17-63). Phase 1 snapshots
`(mover, target)` pairs and the targets' positions; movers whose target no
longer exists are collected as `lost_targets`. Phase 2 moves each mover toward
its target's snapshotted position at the hard-coded speed 125 when the
distance exceeds 50. The deferred commands then remove `TargetEntity` from the
lost movers. There is no `Inert` (nor `Dying`) filter in either query.

`seekMove` is the phase-2 loop body (movement.rs:49-57): move toward the
snapshotted target position at speed 125 if farther than 50 units. -/
def seekMove (delta : ℚ) (targetPos : Vec3) (s : Slime) : Slime :=
  let diff := targetPos.sub s.pos
  if 50 < diff.length then
    { s with pos := s.pos.add (Vec3.smul (125 * delta) diff.normalize) }
  else s

def moveToTargetSystem (delta : ℚ) (w : World) : World :=
  let movers := w.filterMap (fun p => p.2.target.map (fun t => (p.1, t)))
  let moveOrders :=
    movers.filterMap (fun m => (w.get m.2).map (fun ts => (m.1, ts.pos)))
  let lostTargets := (movers.filter (fun m => (w.get m.2).isNone)).map Prod.fst
  let w₁ := moveOrders.foldl
    (fun acc mo => acc.update mo.1 (seekMove delta mo.2)) w
  lostTargets.foldl
    (fun acc e => acc.update e (fun s => { s with target := none })) w₁

/-- The pair of pushes `unsmush_system` (movement.rs:85-106) records for one
close pair: `(entity_a, force)` and `(entity_b, -force)` with
`force = direction * overlap_ratio * push_strength * delta`, where the
direction is the normalized x/y difference, `min_distance = 50` and
`push_strength = 100`. Returns `[]` when the pair is not closer than the
minimum spacing (or fully coincident, `distance ≤ 0.01`). -/
def pushPair (delta : ℚ) (a : EntityId) (pa : Vec3) (b : EntityId) (pb : Vec3) :
    List (EntityId × Vec3) :=
  let diff : Vec3 := ⟨pa.x - pb.x, pa.y - pb.y, 0⟩
  let distance := diff.length
  if distance < 50 ∧ 1 / 100 < distance then
    let overlapRatio := 1 - distance / 50
    let force := Vec3.smul (overlapRatio * 100 * delta) diff.normalize
    [(a, force), (b, force.neg)]
  else []

/-- The double loop `for i in 0..n { for j in (i+1)..n { … } }` of
`unsmush_system`, producing the accumulated push list from the position
snapshot. -/
def pairPushes (delta : ℚ) : List (EntityId × Vec3) → List (EntityId × Vec3)
  | [] => []
  | (a, pa) :: rest =>
      rest.flatMap (fun q => pushPair delta a pa q.1 q.2) ++ pairPushes delta rest

/-- Phase 3 of `unsmush_system`: apply every accumulated push in order. -/
def applyPushes (w : World) (pushes : List (EntityId × Vec3)) : World :=
  pushes.foldl
    (fun acc p => acc.update p.1 (fun s => { s with pos := s.pos.add p.2 })) w

/-- Embeds `movement.rs::unsmush_system` (movement.rs:68-114): snapshot the positions
of all sprite entities, compute all pairwise pushes from that snapshot, then
apply them. -/
def unsmushSystem (delta : ℚ) (w : World) : World :=
  let positions := (w.filter (fun p => p.2.hasSprite)).map (fun p => (p.1, p.2.pos))
  applyPushes w (pairPushes delta positions)

/-- Sum of the force vectors of a push list. -/
def sumForces (l : List (EntityId × Vec3)) : Vec3 :=
  (l.map Prod.snd).foldr Vec3.add Vec3.zero

/-- Embeds `combat.rs::pick_attack_system` (combat.rs:144-184). The query is
`(Entity, &KnownAttacks, &Transform, &TargetEntity)` with
`(Without<ActiveAttack>, Without<Dying>, Without<Merging>, Without<Inert>)`.
For each attacker, looks up the target's transform (skipping the attacker if
the target is gone), filters the known attacks to those whose range covers the
distance, and commits to the randomly chosen one (`IteratorRandom::choose`,
modelled by the `choose` parameter). -/
def pickAttackSystem (choose : EntityId → List Attack → Option Attack)
    (w : World) : World :=
  World.mapEntities
    (fun e s =>
      if s.activeAttack = none ∧ s.dying = false ∧ s.merging = none ∧
          s.inert = false then
        match s.knownAttacks, s.target with
        | some attacks, some tgt =>
            match w.get tgt with
            | none => s
            | some tslime =>
                let distance := s.pos.distance tslime.pos
                let inRange := attacks.filter (fun a => distance ≤ a.range)
                match choose e inRange with
                | some attack =>
                    let aa : ActiveAttack :=
                      { attack := attack, target := tgt, hitTriggered := false }
                    { s with activeAttack := some aa }
                | none => s
        | _, _ => s
      else s)
    w

/-- Cross-cutting notifications emitted by the combat systems:
`DamagedEvent` (health.rs) and `StunnedEvent` (combat.rs). -/
inductive GameEvent where
  | damaged (entity : EntityId)
  | stunned (entity : EntityId)
deriving DecidableEq, Repr

/-- Embeds `combat.rs`: `struct OnHitEvent` — fired by `hit_frame_check_system`,
consumed by `on_hit_observer`. -/
structure OnHitEvent where
  attacker : EntityId
  target : EntityId
  effect : AttackEffect
deriving DecidableEq, Repr

/-- The body of `hit_frame_check_system`'s loop for one `ActiveAttack` at the
current animation frame: `if anim_state.frame_index >= hit_frame &&
!hit_triggered { trigger; hit_triggered = true }`. Returns the updated attack
and whether the hit event was emitted. -/
def hitFrameStep (aa : ActiveAttack) (frameIndex : Nat) : ActiveAttack × Bool :=
  if aa.attack.hitFrame ≤ frameIndex ∧ aa.hitTriggered = false then
    ({ aa with hitTriggered := true }, true)
  else (aa, false)

/-- Embeds `combat.rs::hit_frame_check_system`, restricted to one entity of its query
`(Entity, &mut ActiveAttack, &AnimationState), Without<Dying>`. -/
def hitFrameCheckEntity (e : EntityId) (s : Slime) : Slime × List OnHitEvent :=
  if s.dying then (s, [])
  else
    match s.activeAttack, s.animState with
    | some aa, some anim =>
        let (aa', emitted) := hitFrameStep aa anim.frameIndex
        ({ s with activeAttack := some aa' },
         if emitted then [⟨e, aa.target, aa.attack.onHitEffect⟩] else [])
    | _, _ => (s, [])

/-- Embeds `combat.rs::hit_frame_check_system` over the whole world. The observer
events are returned rather than dispatched inline; `on_hit_observer` is the
separate function below. -/
def hitFrameCheckSystem (w : World) : World × List OnHitEvent :=
  (w.map (fun p => (p.1, (hitFrameCheckEntity p.1 p.2).1)),
   w.flatMap (fun p => (hitFrameCheckEntity p.1 p.2).2))

/-- Iterate `hitFrameStep` over a sequence of animation frame indices (the
lifetime of one `ActiveAttack`), counting how many hit events are emitted. -/
def runHitFrames : ActiveAttack → List Nat → ActiveAttack × Nat
  | aa, [] => (aa, 0)
  | aa, f :: fs =>
      let step := hitFrameStep aa f
      let rest := runHitFrames step.1 fs
      (rest.1, (if step.2 then 1 else 0) + rest.2)

/-- The mutation `on_hit_observer` (combat.rs:230-318) performs on the target's
components, given the attacker's position and the uniform stun draw
(`rng.gen::<f32>()`). Mirrors the source order: (1) damage if `health.0 > 0`
plus `DamagedEvent`; (2) instant knockback displacement away from the attacker
(x/y only) if `knockback > 0` and `diff.length() > 0.01`; (3) stun roll only if
`stun_chance > 0` and the post-damage health is positive: insert `Inert` and
`StunTimer`, remove `ActiveAttack`, set `anim_state.finished = true`, emit
`StunnedEvent`. -/
def onHitTarget (attackerPos : Vec3) (effect : AttackEffect) (stunRoll : ℚ)
    (target : EntityId) (t : Slime) (h : ℤ) (anim : AnimationState) :
    Slime × List GameEvent :=
  -- (1) apply damage
  let t₁ : Slime :=
    if 0 < h then { t with health := some (h - effect.damage) } else t
  let ev₁ : List GameEvent := if 0 < h then [GameEvent.damaged target] else []
  -- (2) apply knockback
  let t₂ : Slime :=
    if 0 < effect.knockback then
      let diff := t₁.pos.sub attackerPos
      if 1 / 100 < diff.length then
        let direction := diff.normalize
        let offset : Vec3 :=
          ⟨direction.x * effect.knockback, direction.y * effect.knockback, 0⟩
        { t₁ with pos := t₁.pos.add offset }
      else t₁
    else t₁
  -- (3) roll for stun, only if the target survived the damage step
  let hAfter : ℤ := if 0 < h then h - effect.damage else h
  if 0 < effect.stunChance ∧ 0 < hAfter then
    if stunRoll < effect.stunChance then
      ({ t₂ with inert := true,
                 stunTimer := some (Timer.fromSeconds effect.stunDuration),
                 activeAttack := none,
                 animState := some { anim with finished := true } },
       ev₁ ++ [GameEvent.stunned target])
    else (t₂, ev₁)
  else (t₂, ev₁)

/-- Embeds `combat.rs::on_hit_observer`. Reads the attacker position (`p0`), then
mutates the target through the query
`(&mut Health, &mut Transform, &mut AnimationState)` — a target missing any of
those components is untouched, as is a despawned attacker or target. -/
def onHitObserver (w : World) (ev : OnHitEvent) (stunRoll : ℚ) :
    World × List GameEvent :=
  match w.get ev.attacker with
  | none => (w, [])
  | some att =>
      match w.get ev.target with
      | none => (w, [])
      | some t =>
          match t.health, t.animState with
          | some h, some anim =>
              let r := onHitTarget att.pos ev.effect stunRoll ev.target t h anim
              (w.update ev.target (fun _ => r.1), r.2)
          | _, _ => (w, [])

/-- Embeds `Timer::tick` + `just_finished` bookkeeping for the repeating
`MergeCheckTimer` (assumes `delta < duration`, i.e. at most one crossing per
tick, which holds for the 0.5 s merge timer at frame rates above 2 fps). -/
def Timer.tickRepeating (t : Timer) (delta : ℚ) : Timer :=
  let e := t.elapsed + delta
  if t.duration ≤ e then { t with elapsed := e - t.duration }
  else { t with elapsed := e }

/-- The eligibility filter of `check_merge_system`'s query
(special_abilities.rs:111-122): `Without<Inert>, Without<Dying>,
Without<ActiveAttack>, Without<PreMerging>, Without<Merging>,
Without<MergedSlime>, With<Health>`. -/
def mergeEligible (s : Slime) : Bool :=
  !s.inert && !s.dying && s.activeAttack.isNone && s.preMerging.isNone &&
    s.merging.isNone && !s.mergedSlime && s.health.isSome

/-- The nested pair loop of `check_merge_system`
(special_abilities.rs:145-196), producing the list of
`(entity_a, entity_b, meeting_point)` merges decided this tick. `roll a b` is
the `rng.gen::<f32>()` draw made when pair `(a, b)` is considered; the pair
merges when the draw is not above 0.05. `paired` is the `already_paired`
claimed-set threaded through both loops. -/
def checkMergePairStep (roll : EntityId → EntityId → ℚ) (a : EntityId)
    (ta : Team) (pa : Vec3)
    (acc : List (EntityId × EntityId × Vec3) × List EntityId)
    (q : EntityId × Team × Vec3) :
    List (EntityId × EntityId × Vec3) × List EntityId :=
  if ta ≠ q.2.1 then acc
  else if a ∈ acc.2 ∨ q.1 ∈ acc.2 then acc
  else if 100 < pa.distance q.2.2 then acc
  else if (5 : ℚ) / 100 < roll a q.1 then acc
  else (acc.1 ++ [(a, q.1, Vec3.smul (1 / 2) (pa.add q.2.2))],
        acc.2 ++ [a, q.1])

def checkMergeLoop (roll : EntityId → EntityId → ℚ) :
    List (EntityId × Team × Vec3) → List EntityId →
    List (EntityId × EntityId × Vec3)
  | [], _ => []
  | c :: rest, paired =>
      let inner := rest.foldl (checkMergePairStep roll c.1 c.2.1 c.2.2) ([], paired)
      inner.1 ++ checkMergeLoop roll rest inner.2

/-- The deferred commands of one decided pair (special_abilities.rs:179-191):
insert a fresh 1.5 s `PreMerging` on both partners — each pointing at the
other, sharing the fixed meeting point — and remove their `TargetEntity`. -/
def applyPreMergePair (w : World) (p : EntityId × EntityId × Vec3) : World :=
  let t := Timer.fromSeconds (3 / 2)
  let w₁ := w.update p.1
    (fun s => { s with preMerging := some ⟨t, p.2.1, p.2.2⟩, target := none })
  w₁.update p.2.1
    (fun s => { s with preMerging := some ⟨t, p.1, p.2.2⟩, target := none })

/-- Embeds `special_abilities.rs::check_merge_system` (104-197): tick the repeating
`MergeCheckTimer` and return unless it just finished; otherwise snapshot the
eligible candidates, run the pair loop, and apply the deferred commands. -/
def checkMergeSystem (roll : EntityId → EntityId → ℚ) (timer : Timer)
    (delta : ℚ) (w : World) : Timer × World :=
  let timer' := timer.tickRepeating delta
  if timer.duration ≤ timer.elapsed + delta then
    let candidates :=
      (w.filter (fun p => mergeEligible p.2)).map (fun p => (p.1, p.2.team, p.2.pos))
    let pairs := checkMergeLoop roll candidates []
    (timer', pairs.foldl applyPreMergePair w)
  else (timer', w)

/-- The deferred structural commands issued by `pre_merge_system` and
`stun_timer_system`. -/
inductive Cmd where
  | removePreMerging (e : EntityId)
  | insertMerging (e : EntityId) (m : Merging)
  | insertAnimState (e : EntityId) (a : AnimationState)
deriving DecidableEq, Repr

/-- The entity a deferred command is aimed at. -/
def Cmd.target : Cmd → EntityId
  | .removePreMerging e => e
  | .insertMerging e _ => e
  | .insertAnimState e _ => e

/-- Effect of one deferred command on its target's component set. -/
def applyCmdSlime (s : Slime) : Cmd → Slime
  | .removePreMerging _ => { s with preMerging := none }
  | .insertMerging _ m => { s with merging := some m }
  | .insertAnimState _ a => { s with animState := some a }

/-- Apply one deferred command (a command aimed at a despawned entity is a
silent no-op, as with Bevy's `get_entity` guards). -/
def applyCmd (w : World) (c : Cmd) : World :=
  w.update c.target (fun s => applyCmdSlime s c)

/-- Phase 1 of `pre_merge_system` (special_abilities.rs:265-266): the direct
`pre_merging.timer.tick(time.delta())` mutation on every queried entity
(`(Entity, &mut PreMerging), Without<Dying>`). -/
def preMergeTick (delta : ℚ) (w : World) : World :=
  World.mapEntities
    (fun _ s =>
      if s.dying then s
      else
        match s.preMerging with
        | some pm =>
            { s with preMerging := some { pm with timer := pm.timer.tick delta } }
        | none => s)
    w

/-- Phase 2 of `pre_merge_system` (special_abilities.rs:268-312): the deferred
commands each queried entity generates after its timer tick. If the partner is
despawned or dying (`alive_check`), cancel this entity's `PreMerging`. If the
telegraph timer has finished, restore a fresh looping `AnimationState` on both
partners and swap `PreMerging` for `Merging` on both — this entity pointing at
the partner and the partner pointing back at this entity. `totalFrames` is the
frame count of the shared `move_small_jump` atlas layout. -/
def preMergeBlock (totalFrames : Nat) (w : World) (e : EntityId) (s : Slime) :
    List Cmd :=
  if s.dying then []
  else
    match s.preMerging with
    | none => []
    | some pm =>
        let partnerAlive :=
          match w.get pm.partner with
          | none => false
          | some ps => !ps.dying
        if !partnerAlive then [Cmd.removePreMerging e]
        else if pm.timer.finished then
          [Cmd.insertAnimState e (AnimationState.new (1 / 10) totalFrames true),
           Cmd.insertAnimState pm.partner (AnimationState.new (1 / 10) totalFrames true),
           Cmd.removePreMerging e,
           Cmd.insertMerging e ⟨pm.partner, pm.meetingPoint⟩,
           Cmd.removePreMerging pm.partner,
           Cmd.insertMerging pm.partner ⟨e, pm.meetingPoint⟩]
        else []

def preMergeCommands (totalFrames : Nat) (w : World) : List Cmd :=
  w.flatMap (fun p => preMergeBlock totalFrames w p.1 p.2)

/-- Embeds `special_abilities.rs::pre_merge_system` (252-314): direct timer ticks,
then the deferred command queue applied in order. -/
def preMergeSystem (totalFrames : Nat) (delta : ℚ) (w : World) : World :=
  let w₁ := preMergeTick delta w
  (preMergeCommands totalFrames w₁).foldl applyCmd w₁

/-- All entity ids occurring as an endpoint of a decided merge pair. -/
def pairEndpoints (pairs : List (EntityId × EntityId × Vec3)) : List EntityId :=
  pairs.flatMap (fun p => [p.1, p.2.1])

/-- The merge-pairing invariant of the data model: a live, non-dying unit is
in at most one of the PreMerging/Merging states, and its partner pointer
names a different, existing unit that either points straight back or is dying
(the window in which the cancellation systems strip the survivor's tag). -/
def MergeSymm (w : World) : Prop :=
  ∀ e s, w.get e = some s → s.dying = false →
    (¬ (s.preMerging.isSome ∧ s.merging.isSome))
    ∧ (∀ pm : PreMerging, s.preMerging = some pm →
        pm.partner ≠ e ∧
        ∃ s', w.get pm.partner = some s' ∧
          (s'.dying = true ∨
            ∃ pm' : PreMerging, s'.preMerging = some pm' ∧ pm'.partner = e))
    ∧ (∀ mg : Merging, s.merging = some mg →
        mg.partner ≠ e ∧
        ∃ s', w.get mg.partner = some s' ∧
          (s'.dying = true ∨
            ∃ mg' : Merging, s'.merging = some mg' ∧ mg'.partner = e))

/-- Embeds `Query::get` on `execute_merge_system`'s query
`(Entity, &Merging, &Transform, &Team), Without<Dying>`: succeeds only for a
live entity that has `Merging` and is not dying. -/
def mergeQueryGet (w : World) (e : EntityId) : Option Slime :=
  match w.get e with
  | none => none
  | some s => if s.merging.isSome ∧ s.dying = false then some s else none

/-- The merged-slime bundle spawned by `execute_merge_system`
(special_abilities.rs:426-448): position at the pair's midpoint (visual scale
2 is not modelled), big animation variants for the unit's team, `Health(40)`,
`Speed(125.0)`, one attack with `hit_frame: 3`, `damage: 8`, no knockback and
`range: 100.0` (the source omits the stun fields, which default to 0), and the
permanent `MergedSlime` tag. The bundle has no `IdleAnimation`, no
`AnimationState` and no `Sprite` (the animation systems attach those later). -/
def mergedSlimeUnit (team : Team) (midpoint : Vec3) : Slime :=
  let anims : AnimationType × AnimationType × AnimationType :=
    match team with
    | .Player => (.BigSlimeJumpIdle, .BigSlimeAttack, .BigSlimeDeath)
    | .Enemy => (.EnemyBigSlimeJumpIdle, .EnemyBigSlimeAttack, .EnemyBigSlimeDeath)
  { Slime.base midpoint team with
      strategy := some .Close,
      animType := some anims.1,
      deathAnim := some anims.2.2,
      health := some 40,
      speed := some 125,
      knownAttacks := some [{ animation := anims.2.1, hitFrame := 3,
                              onHitEffect := { damage := 8, knockback := 0,
                                               stunChance := 0, stunDuration := 0 },
                              range := 100 }],
      mergedSlime := true }

/-- The loop of `execute_merge_system` (special_abilities.rs:362-449) over the
query snapshot, threading the `already_merged` claimed-set and collecting the
deferred commands: the ids despawned and the merged bundles spawned. -/
def executeMergeLoop (w : World) :
    List (EntityId × Slime) → List EntityId → List EntityId × List Slime
  | [], _ => ([], [])
  | p :: rest, already =>
      match p.2.merging, p.2.dying with
      | some mg, false =>
          if p.1 ∈ already then executeMergeLoop w rest already
          else
            match mergeQueryGet w mg.partner with
            | none => executeMergeLoop w rest already
            | some ps =>
                if 40 < p.2.pos.distance ps.pos then
                  executeMergeLoop w rest already
                else
                  let midpoint := Vec3.smul (1 / 2) (p.2.pos.add ps.pos)
                  let r := executeMergeLoop w rest (already ++ [p.1, mg.partner])
                  (p.1 :: mg.partner :: r.1,
                   mergedSlimeUnit p.2.team midpoint :: r.2)
      | _, _ => executeMergeLoop w rest already

/-- Embeds `special_abilities.rs::execute_merge_system` (355-450), as the deferred
command queue it produces: the despawned entity ids and the spawned merged
bundles. -/
def executeMergeCommands (w : World) : List EntityId × List Slime :=
  executeMergeLoop w w []

/-- Guard of `set_dying_system` (health.rs:48-57): the entity's `Health`
changed this tick (`Changed<Health>`), it is not already `Dying`, and its
health is ≤ 0. `changed` is the set of entities whose `Health` was written
since the system last ran. -/
def willDie (changed : List EntityId) (e : EntityId) (s : Slime) : Bool :=
  decide (e ∈ changed) && !s.dying &&
    (match s.health with
     | some h => decide (h ≤ 0)
     | none => false)

/-- Embeds `health.rs::set_dying_system`: insert `Dying` on every entity matching
`(Entity, &Health), (Without<Dying>, Changed<Health>)` whose health is ≤ 0. -/
def setDyingSystem (changed : List EntityId) (w : World) : World :=
  World.mapEntities
    (fun e s => if willDie changed e s then { s with dying := true } else s) w

/-- Embeds `health.rs::when_starts_dying_system`: for entities that just gained
`Dying` (`Added<Dying>`) and carry both an `AnimationType` and a
`DeathAnimation`, switch the current animation to the death animation. -/
def whenStartsDyingSystem (added : List EntityId) (w : World) : World :=
  World.mapEntities
    (fun e s =>
      if e ∈ added ∧ s.dying then
        match s.animType, s.deathAnim with
        | some _, some d => { s with animType := some d }
        | _, _ => s
      else s)
    w

/-- The death pipeline of health.rs as one step: `set_dying_system` followed by
`when_starts_dying_system` on the entities that just became dying. -/
def deathPipelineStep (changed : List EntityId) (w : World) : World :=
  let added := (w.filter (fun p => willDie changed p.1 p.2)).map Prod.fst
  whenStartsDyingSystem added (setDyingSystem changed w)

/-- Embeds `setup_round.rs::stun_timer_system` (66-94). The query is
`(Entity, &mut StunTimer, &mut AnimationState, &Children), With<Inert>` — an
entity missing any of those four (in particular one whose `Children` component
is gone because its ice-VFX child was already despawned) is not iterated at
all, so its timer is never ticked. On `just_finished`: remove `Inert` and
`StunTimer`, set `finished = false` on the animation, and despawn any children
carrying `IceImpactVfx`. -/
def stunTimerSystem (delta : ℚ) (w : World) : World :=
  let processed := World.mapEntities
    (fun _ s =>
      if s.inert then
        match s.stunTimer, s.animState, s.children with
        | some st, some anim, some _ =>
            if st.justFinishedAfter delta then
              { s with inert := false, stunTimer := none,
                       animState := some { anim with finished := false } }
            else { s with stunTimer := some (st.tick delta) }
        | _, _, _ => s
      else s)
    w
  let vfxToDespawn := w.flatMap (fun p =>
    if p.2.inert then
      match p.2.stunTimer, p.2.animState, p.2.children with
      | some st, some _, some ch =>
          if st.justFinishedAfter delta then
            ch.filter (fun c => ((w.get c).map Slime.iceVfx).getD false)
          else []
      | _, _, _ => []
    else [])
  processed.despawnAll vfxToDespawn

/-- The component bundle of `spawn_slimes.rs::spawn_normal_slime` (105-168):
`Health(10)`, `Speed(125.0)`, one attack with `hit_frame: 3`, `damage: 2`, no
knockback or stun, `range: 65.0`, the team's animation set, `Inert` (removed
by the pre-game timer), and a sprite. `x, y` are the random spawn
coordinates. -/
def normalSlimeUnit (team : Team) (x y : ℚ) : Slime :=
  let anims : AnimationType × AnimationType × AnimationType :=
    match team with
    | .Player => (.SlimeMoveSmallJump, .SlimeAttack, .SlimeDeath)
    | .Enemy => (.EnemySlimeMoveSmallJump, .EnemySlimeAttack, .EnemySlimeDeath)
  { Slime.base ⟨x, y, 0⟩ team with
      strategy := some .Close,
      animType := some anims.1,
      idleAnim := some anims.1,
      deathAnim := some anims.2.2,
      health := some 10,
      speed := some 125,
      knownAttacks := some [{ animation := anims.2.1, hitFrame := 3,
                              onHitEffect := { damage := 2, knockback := 0,
                                               stunChance := 0, stunDuration := 0 },
                              range := 65 }],
      inert := true,
      hasSprite := true }

/-- The overrides `spawn_slimes.rs::spawn_tank_slime` (170-219) applies on top
of a normal slime: `Health(20)` and a single attack with `damage: 2`,
`stun_chance: 0.1`, `stun_duration: 1.5` (the shield child and `BlockChance`
belong to the block mechanic, outside these claims). -/
def tankSlimeUnit (team : Team) (x y : ℚ) : Slime :=
  let base := normalSlimeUnit team x y
  let attackAnim : AnimationType :=
    match team with
    | .Player => .SlimeAttack
    | .Enemy => .EnemySlimeAttack
  { base with
      health := some 20,
      knownAttacks := some [{ animation := attackAnim, hitFrame := 3,
                              onHitEffect := { damage := 2, knockback := 0,
                                               stunChance := 1 / 10,
                                               stunDuration := 3 / 2 },
                              range := 65 }] }

/-! ### Concrete fixtures used by witnesses and counterexamples -/

/-- An attack effect dealing 2 damage with no knockback and no stun. -/
def plainEffect : AttackEffect :=
  { damage := 2, knockback := 0, stunChance := 0, stunDuration := 0 }

/-- Two-unit fixture: attacker 0 at the origin, target 1 at distance 10 with
1 health and a running animation. -/
def overkillWorld : World :=
  [(0, Slime.base ⟨0, 0, 0⟩ .Player),
   (1, { Slime.base ⟨10, 0, 0⟩ .Enemy with
           health := some 1,
           animState := some (AnimationState.new (1 / 10) 4 false) })]

/-- A stunned unit whose ice-VFX child has already been despawned: it carries
`Inert` and a half-elapsed `StunTimer` but no `Children` component. -/
def orphanStunSlime : Slime :=
  { Slime.base ⟨0, 0, 0⟩ .Player with
      inert := true,
      stunTimer := some { elapsed := 3 / 4, duration := 3 / 2 },
      animState := some { AnimationState.new (1 / 10) 4 true with finished := true },
      health := some 10 }

/-- World containing only the orphaned stunned unit. -/
def orphanStunWorld : World := [(7, orphanStunSlime)]

/-- A mid-attack marker on frame-3 hit timing, not yet triggered. -/
def sampleAttack : ActiveAttack :=
  { attack := { animation := .SlimeAttack, hitFrame := 3,
                onHitEffect := plainEffect, range := 65 },
    target := 1, hitTriggered := false }

/-- An effect with 2 damage, knockback 10 and a 50 % stun chance. -/
def kbEffect : AttackEffect :=
  { damage := 2, knockback := 10, stunChance := 1 / 2, stunDuration := 3 / 2 }

/-- A short non-looping animation state at frame 0. -/
def kbAnim : AnimationState := AnimationState.new (1 / 10) 4 false

/-- Attacker 0 at the origin, target 1 at (3, 4, 0) — distance exactly 5 —
with 5 health. -/
def kbWorld : World :=
  [(0, Slime.base ⟨0, 0, 0⟩ .Player),
   (1, { Slime.base ⟨3, 4, 0⟩ .Enemy with
           health := some 5, animState := some kbAnim })]

/-- A unit that targets unit 1 and a unit 1 at 0 health that still has its
`Speed` and animations — the input on which the death pipeline fires. -/
def deathWorld : World :=
  [(0, { Slime.base ⟨0, 0, 0⟩ .Player with target := some 1 }),
   (1, { Slime.base ⟨60, 0, 0⟩ .Enemy with
           health := some 0,
           speed := some 125,
           animType := some .EnemySlimeMoveSmallJump,
           deathAnim := some .EnemySlimeDeath })]

/-- A sampling function for the `choose_multiple` parameter: take the first
(up to) 3 candidates. -/
def takeSample (l : List (EntityId × Vec3)) : List (EntityId × Vec3) :=
  l.take 3

/-- An Inert unit that still needs a target (strategy `Close`, no
`TargetEntity`). -/
def inertSeeker : Slime :=
  { Slime.base ⟨0, 0, 0⟩ .Player with strategy := some .Close, inert := true }

/-- World: the Inert target-seeker plus one enemy 48 units away. -/
def inertTargetWorld : World :=
  [(0, inertSeeker), (1, Slime.base ⟨48, 0, 0⟩ .Enemy)]

/-- An Inert unit that holds a target beyond the 50-unit stop threshold. -/
def inertMover : Slime :=
  { Slime.base ⟨0, 0, 0⟩ .Player with target := some 1, inert := true }

/-- World: the Inert mover and its target at distance 55. -/
def inertMoveWorld : World :=
  [(0, inertMover), (1, Slime.base ⟨33, 44, 0⟩ .Enemy)]

/-- An Inert unit in range of its target with a known attack. -/
def inertAttacker : Slime :=
  { Slime.base ⟨0, 0, 0⟩ .Player with
      target := some 1, inert := true,
      knownAttacks := some [sampleAttack.attack] }

/-- World: the Inert attacker and its target 10 units away (well inside the
65-unit attack range). -/
def inertAttackWorld : World :=
  [(0, inertAttacker), (1, Slime.base ⟨10, 0, 0⟩ .Enemy)]

/-- A normal slime at the origin, mid-merge, walking to meet unit 1. -/
def mergeSlimeA : Slime :=
  { normalSlimeUnit .Player 0 0 with
      inert := false,
      merging := some { partner := 1, meetingPoint := ⟨5, 0, 0⟩ } }

/-- The partner slime 10 units away, pointing back at unit 0. -/
def mergeSlimeB : Slime :=
  { normalSlimeUnit .Player 10 0 with
      inert := false,
      merging := some { partner := 0, meetingPoint := ⟨5, 0, 0⟩ } }

/-- A merging pair ready to execute: units 0 and 1, 10 units apart, mutual
`Merging` pointers, each with normal-slime stats. -/
def mergePairWorld : World := [(0, mergeSlimeA), (1, mergeSlimeB)]

/-! ### Theorems -/

theorem World.update_get_self {w : World} {e : EntityId} {f : Slime → Slime} :
    (w.update e f).get e = (w.get e).map f := by
  induction w with
  | nil => simp [World.update, World.get]
  | cons hd tl ih =>
      by_cases h : hd.1 = e
      · simp [World.update, World.get, h]
      · simpa [World.update, World.get, h] using ih

theorem World.update_get_other {w : World} {e e' : EntityId} {f : Slime → Slime}
    (h : e' ≠ e) : (w.update e f).get e' = w.get e' := by
  induction w with
  | nil => simp [World.update, World.get]
  | cons hd tl ih =>
      simp only [World.update, World.get]
      by_cases hh : hd.1 = e
      · have hne : ¬ hd.1 = e' := fun hx => h (hx.symm.trans hh)
        simp [hh, hne, ih, Ne.symm h]
      · by_cases hh' : hd.1 = e'
        · simp [hh, hh', ih, h]
        · simp [hh, hh', ih]

theorem World.mapEntities_get {f : EntityId → Slime → Slime} {w : World}
    {e : EntityId} : (World.mapEntities f w).get e = (w.get e).map (f e) := by
  induction w with
  | nil => simp [World.mapEntities, World.get]
  | cons hd tl ih =>
      by_cases h : hd.1 = e
      · simp [World.mapEntities, World.get, h]
      · simpa [World.mapEntities, World.get, h] using ih

theorem World.despawnAll_get {w : World} {es : List EntityId} {e : EntityId}
    (h : e ∉ es) : (w.despawnAll es).get e = w.get e := by
  induction w with
  | nil => simp [World.despawnAll, World.get]
  | cons hd tl ih =>
      by_cases hh : hd.1 = e
      · subst hh
        simp [World.despawnAll, World.get, h]
      · by_cases hm : hd.1 ∈ es
        · simpa [World.despawnAll, World.get, hm, hh] using ih
        · simpa [World.despawnAll, World.get, hm, hh] using ih

theorem onHitTarget_health (attackerPos : Vec3) (effect : AttackEffect)
    (roll : ℚ) (target : EntityId) (t : Slime) (h : ℤ) (anim : AnimationState) :
    (onHitTarget attackerPos effect roll target t h anim).1.health
      = if 0 < h then some (h - effect.damage) else t.health := by
  simp only [onHitTarget]
  split_ifs <;> simp_all

theorem onHitTarget_events (attackerPos : Vec3) (effect : AttackEffect)
    (roll : ℚ) (target : EntityId) (t : Slime) (h : ℤ) (anim : AnimationState) :
    (onHitTarget attackerPos effect roll target t h anim).2
      = (if 0 < h then [GameEvent.damaged target] else [])
        ++ (if 0 < effect.stunChance ∧
              0 < (if 0 < h then h - effect.damage else h) ∧
              roll < effect.stunChance
            then [GameEvent.stunned target] else []) := by
  simp only [onHitTarget]
  split_ifs <;> simp_all

theorem onHitTarget_pos (attackerPos : Vec3) (effect : AttackEffect)
    (roll : ℚ) (target : EntityId) (t : Slime) (h : ℤ) (anim : AnimationState) :
    (onHitTarget attackerPos effect roll target t h anim).1.pos
      = if 0 < effect.knockback ∧ 1 / 100 < (t.pos.sub attackerPos).length then
          t.pos.add ⟨(t.pos.sub attackerPos).normalize.x * effect.knockback,
                     (t.pos.sub attackerPos).normalize.y * effect.knockback, 0⟩
        else t.pos := by
  simp only [onHitTarget]
  split_ifs <;> simp_all <;> exfalso <;> linarith

theorem onHitTarget_stun_fields (attackerPos : Vec3) (effect : AttackEffect)
    (roll : ℚ) (target : EntityId) (t : Slime) (h : ℤ) (anim : AnimationState) :
    if 0 < effect.stunChance ∧ 0 < (if 0 < h then h - effect.damage else h) ∧
        roll < effect.stunChance then
      (onHitTarget attackerPos effect roll target t h anim).1.inert = true ∧
      (onHitTarget attackerPos effect roll target t h anim).1.stunTimer
        = some (Timer.fromSeconds effect.stunDuration) ∧
      (onHitTarget attackerPos effect roll target t h anim).1.activeAttack = none ∧
      (onHitTarget attackerPos effect roll target t h anim).1.animState
        = some { anim with finished := true }
    else
      (onHitTarget attackerPos effect roll target t h anim).1.inert = t.inert ∧
      (onHitTarget attackerPos effect roll target t h anim).1.stunTimer
        = t.stunTimer ∧
      (onHitTarget attackerPos effect roll target t h anim).1.activeAttack
        = t.activeAttack ∧
      (onHitTarget attackerPos effect roll target t h anim).1.animState
        = t.animState := by
  simp only [onHitTarget]
  split_ifs <;> simp_all

theorem knockback_sq_magnitude (d : Vec3) (kb : ℚ) (hz : d.z = 0)
    (hex : qSqrt d.sqLen ^ 2 = d.sqLen) (hpos : (0 : ℚ) < qSqrt d.sqLen) :
    Vec3.sqLen ⟨d.normalize.x * kb, d.normalize.y * kb, 0⟩ = kb ^ 2 := by
  have hL : qSqrt d.sqLen ≠ 0 := ne_of_gt hpos
  simp only [Vec3.normalize, Vec3.length, Vec3.smul, Vec3.sqLen] at hex hL ⊢
  field_simp
  linear_combination (-(kb ^ 2)) * hex - kb ^ 2 * d.z * hz

/-- C3: `on_hit_observer`'s order of operations on a resolved hit:
(1) damage is subtracted and a damaged notification emitted exactly when the
target's health is still positive at resolution time; (2) knockback displaces
the target along the attacker-to-target direction, x/y only, and — whenever
the modelled square root is exact on that input and the pair is in the z = 0
gameplay plane — by exactly the configured knockback distance; (3) the stun
effects (insert `Inert` + `StunTimer`, clear `ActiveAttack`, freeze the
`AnimationState`, emit a stunned notification) are applied exactly when
`stun_chance > 0`, the post-damage health is still positive, and the uniform
draw succeeds — otherwise all of those components are left untouched. -/
theorem C3_on_hit_order_of_operations (w : World) (ev : OnHitEvent) (roll : ℚ)
    (att t : Slime) (h : ℤ) (anim : AnimationState)
    (hatt : w.get ev.attacker = some att) (htar : w.get ev.target = some t)
    (hh : t.health = some h) (ha : t.animState = some anim) :
    ∃ r, (onHitObserver w ev roll).1.get ev.target = some r ∧
      ((onHitObserver w ev roll).2
        = (if 0 < h then [GameEvent.damaged ev.target] else [])
          ++ (if 0 < ev.effect.stunChance ∧
                0 < (if 0 < h then h - ev.effect.damage else h) ∧
                roll < ev.effect.stunChance
              then [GameEvent.stunned ev.target] else [])) ∧
      r.health = some (if 0 < h then h - ev.effect.damage else h) ∧
      (0 < ev.effect.knockback → 1 / 100 < (t.pos.sub att.pos).length →
        r.pos = t.pos.add
          ⟨(t.pos.sub att.pos).normalize.x * ev.effect.knockback,
           (t.pos.sub att.pos).normalize.y * ev.effect.knockback, 0⟩ ∧
        ((t.pos.sub att.pos).z = 0 →
          qSqrt (t.pos.sub att.pos).sqLen ^ 2 = (t.pos.sub att.pos).sqLen →
          Vec3.sqLen (r.pos.sub t.pos) = ev.effect.knockback ^ 2)) ∧
      ((0 < ev.effect.stunChance ∧
          0 < (if 0 < h then h - ev.effect.damage else h) ∧
          roll < ev.effect.stunChance) →
        r.inert = true ∧
        r.stunTimer = some (Timer.fromSeconds ev.effect.stunDuration) ∧
        r.activeAttack = none ∧
        r.animState = some { anim with finished := true }) ∧
      (¬ (0 < ev.effect.stunChance ∧
          0 < (if 0 < h then h - ev.effect.damage else h) ∧
          roll < ev.effect.stunChance) →
        r.inert = t.inert ∧ r.stunTimer = t.stunTimer ∧
        r.activeAttack = t.activeAttack ∧ r.animState = t.animState) := by
  refine ⟨(onHitTarget att.pos ev.effect roll ev.target t h anim).1, ?_, ?_, ?_, ?_, ?_, ?_⟩
  · simp only [onHitObserver, hatt, htar, hh, ha]
    rw [World.update_get_self, htar]
    rfl
  · simp only [onHitObserver, hatt, htar, hh, ha]
    exact onHitTarget_events att.pos ev.effect roll ev.target t h anim
  · have := onHitTarget_health att.pos ev.effect roll ev.target t h anim
    rw [hh] at this
    rw [this]
    split_ifs <;> rfl
  · intro hkb hlen
    have hpos := onHitTarget_pos att.pos ev.effect roll ev.target t h anim
    rw [if_pos ⟨hkb, hlen⟩] at hpos
    refine ⟨hpos, ?_⟩
    intro hz hex
    have h0 : (0 : ℚ) < qSqrt (t.pos.sub att.pos).sqLen := by
      have : (0 : ℚ) < 1 / 100 := by norm_num
      exact lt_trans this hlen
    have hmag := knockback_sq_magnitude (t.pos.sub att.pos) ev.effect.knockback hz hex h0
    rw [hpos]
    have harith : ∀ (a b : Vec3), (a.add b).sub a = b := by
      intro a b
      cases a
      cases b
      simp only [Vec3.add, Vec3.sub, Vec3.mk.injEq]
      refine ⟨by ring, by ring, by ring⟩
    rw [harith]
    exact hmag
  · intro hcond
    have := onHitTarget_stun_fields att.pos ev.effect roll ev.target t h anim
    rw [if_pos hcond] at this
    exact this
  · intro hcond
    have := onHitTarget_stun_fields att.pos ev.effect roll ev.target t h anim
    rw [if_neg hcond] at this
    exact this

/-- C4 counterexample: The claim says Health is clamped to be ≥ 0. But a
hit dealing 2 damage to a unit at 1 health leaves its `Health` field at −1:
`on_hit_observer` subtracts without clamping (combat.rs:251-252). -/
theorem C4_counterexample :
    ((onHitObserver overkillWorld ⟨0, 1, plainEffect⟩ (1 / 2)).1.get 1).map
        Slime.health = some (some (-1))
      ∧ (-1 : ℤ) < 0 := by
  constructor
  · rfl
  · decide

/-- C4 amended: Health is not clamped: when a hit resolves on a target
whose health is positive, the full attack damage is subtracted — possibly
leaving the Health field negative — and a target already at health ≤ 0 takes
no further damage. -/
theorem C4_health_unclamped (w : World) (ev : OnHitEvent) (roll : ℚ)
    (att t : Slime) (h : ℤ) (anim : AnimationState)
    (hatt : w.get ev.attacker = some att) (htar : w.get ev.target = some t)
    (hh : t.health = some h) (ha : t.animState = some anim) :
    ((onHitObserver w ev roll).1.get ev.target).map Slime.health
      = some (if 0 < h then some (h - ev.effect.damage) else some h) := by
  simp only [onHitObserver, hatt, htar, hh, ha]
  rw [World.update_get_self, htar]
  have := onHitTarget_health att.pos ev.effect roll ev.target t h anim
  rw [hh] at this
  simp only [Option.map_some']
  rw [this]

/-- Witness for C4: a 3-health target hit for 2 damage ends at 1 health. -/
theorem C4_health_unclamped_witness :
    ((onHitObserver
        [(0, Slime.base ⟨0, 0, 0⟩ .Player),
         (1, { Slime.base ⟨10, 0, 0⟩ .Enemy with
                 health := some 3,
                 animState := some (AnimationState.new (1 / 10) 4 false) })]
        ⟨0, 1, plainEffect⟩ (1 / 2)).1.get 1).map Slime.health
      = some (some 1) := by
  have := C4_health_unclamped
    [(0, Slime.base ⟨0, 0, 0⟩ .Player),
     (1, { Slime.base ⟨10, 0, 0⟩ .Enemy with
             health := some 3,
             animState := some (AnimationState.new (1 / 10) 4 false) })]
    ⟨0, 1, plainEffect⟩ (1 / 2)
    (Slime.base ⟨0, 0, 0⟩ .Player)
    ({ Slime.base ⟨10, 0, 0⟩ .Enemy with
         health := some 3,
         animState := some (AnimationState.new (1 / 10) 4 false) })
    3 (AnimationState.new (1 / 10) 4 false) rfl rfl rfl rfl
  simpa using this

theorem runHitFrames_triggered (aa : ActiveAttack) (fs : List Nat)
    (h : aa.hitTriggered = true) : (runHitFrames aa fs).2 = 0 := by
  induction fs generalizing aa with
  | nil => rfl
  | cons f fs ih =>
      have hcond : ¬ (aa.attack.hitFrame ≤ f ∧ aa.hitTriggered = false) := by
        simp [h]
      simp only [runHitFrames, hitFrameStep, if_neg hcond]
      simpa using ih aa h

theorem runHitFrames_count (aa : ActiveAttack) (fs : List Nat)
    (h : aa.hitTriggered = false) :
    (runHitFrames aa fs).2
      = if fs.any (fun f => decide (aa.attack.hitFrame ≤ f)) then 1 else 0 := by
  induction fs generalizing aa with
  | nil => simp [runHitFrames]
  | cons f fs ih =>
      by_cases hf : aa.attack.hitFrame ≤ f
      · simp only [runHitFrames, hitFrameStep, h, hf, true_and, if_pos, if_true]
        have h0 := runHitFrames_triggered { aa with hitTriggered := true } fs rfl
        simp [h0, hf]
      · simp only [runHitFrames, hitFrameStep, h, hf, false_and, if_neg, if_false]
        simp [ih aa h, hf]

/-- C7: For every `ActiveAttack`: (1) one pass of
`hit_frame_check_system`'s per-entity body emits the hit event and sets
`hit_triggered` exactly when the animation frame has reached the attack's hit
frame and the flag is still unset, and leaves the attack untouched otherwise;
(2) once `hit_triggered` is set no further event is ever emitted; (3) over any
sequence of observed frame indices, the event fires exactly once if some frame
reaches the hit frame, and never otherwise — in particular at most once over
the lifetime of the `ActiveAttack`. -/
theorem C7_hit_event_fires_exactly_once :
    (∀ (e : EntityId) (s : Slime) (aa : ActiveAttack) (anim : AnimationState),
      s.dying = false → s.activeAttack = some aa → s.animState = some anim →
      hitFrameCheckEntity e s
        = if aa.attack.hitFrame ≤ anim.frameIndex ∧ aa.hitTriggered = false then
            ({ s with activeAttack := some { aa with hitTriggered := true } },
             [⟨e, aa.target, aa.attack.onHitEffect⟩])
          else (s, []))
    ∧ (∀ (aa : ActiveAttack) (fs : List Nat), aa.hitTriggered = true →
        (runHitFrames aa fs).2 = 0)
    ∧ (∀ (aa : ActiveAttack) (fs : List Nat), aa.hitTriggered = false →
        (runHitFrames aa fs).2
          = if fs.any (fun f => decide (aa.attack.hitFrame ≤ f)) then 1 else 0) := by
  refine ⟨?_, runHitFrames_triggered, runHitFrames_count⟩
  intro e s aa anim hd hsa han
  by_cases hcond : aa.attack.hitFrame ≤ anim.frameIndex ∧ aa.hitTriggered = false
  · simp [hitFrameCheckEntity, hd, hsa, han, hitFrameStep, hcond]
  · simp only [hitFrameCheckEntity, hd, hsa, han, hitFrameStep, if_neg hcond,
      Bool.false_eq_true, if_false]
    rw [← hd, ← hsa, ← han]

/-- Witness for C7: an attack with hit frame 3 watched over frames
0,1,3,4 fires exactly once. -/
theorem C7_hit_event_fires_exactly_once_witness :
    (runHitFrames sampleAttack [0, 1, 3, 4]).2 = 1 := by
  have := C7_hit_event_fires_exactly_once.2.2 sampleAttack [0, 1, 3, 4] rfl
  simpa using this

/-- C10: `stun_timer_system`'s query demands a `Children` component: a
unit carrying `Inert` and a `StunTimer` but no child entities is skipped
entirely — its timer is not ticked and `Inert`/`StunTimer` stay in place, so
this system never un-stuns it. (The ice-VFX child the query depends on can be
despawned earlier by `ice_vfx_cleanup_system`.) -/
theorem C10_stun_expiry_requires_children (delta : ℚ) (w : World)
    (e : EntityId) (s : Slime) (hs : w.get e = some s) (hin : s.inert = true)
    (hst : s.stunTimer.isSome) (hch : s.children = none)
    (hvfx : s.iceVfx = false) :
    (stunTimerSystem delta w).get e = some s := by
  have hnot : e ∉ w.flatMap (fun p =>
      if p.2.inert then
        match p.2.stunTimer, p.2.animState, p.2.children with
        | some st, some _, some ch =>
            if st.justFinishedAfter delta then
              ch.filter (fun c => ((w.get c).map Slime.iceVfx).getD false)
            else []
        | _, _, _ => []
      else []) := by
    intro hmem
    rw [List.mem_flatMap] at hmem
    obtain ⟨p, hp, he⟩ := hmem
    by_cases hi : p.2.inert
    · rcases h1 : p.2.stunTimer with _ | st <;>
        rcases h2 : p.2.animState with _ | anim <;>
        rcases h3 : p.2.children with _ | ch <;>
        simp only [hi, h1, h2, h3, if_true] at he <;> try simp at he
      obtain ⟨-, -, hiv⟩ := he
      rw [hs] at hiv
      simp [hvfx] at hiv
    · simp [hi] at he
  obtain ⟨st, hst'⟩ := Option.isSome_iff_exists.mp hst
  show ((World.mapEntities _ w).despawnAll _).get e = some s
  rw [World.despawnAll_get hnot, World.mapEntities_get, hs]
  rcases ha : s.animState with _ | anim <;> simp [hin, hst', ha, hch]

/-- Witness for C10: the orphaned stunned unit (no `Children`) is untouched by
a stun-timer step. -/
theorem C10_stun_expiry_requires_children_witness :
    (stunTimerSystem (1 / 60) orphanStunWorld).get 7 = some orphanStunSlime :=
  C10_stun_expiry_requires_children (1 / 60) orphanStunWorld 7 orphanStunSlime
    rfl rfl rfl rfl rfl

/-- Witness for C3: hitting the (3,4,0) target for 2 damage with knockback 10
and a successful stun roll moves it to (9,12,0) — a displacement of exactly
length 10 along the attacker→target direction — and stuns it. -/
theorem C3_on_hit_order_of_operations_witness :
    ((onHitObserver kbWorld ⟨0, 1, kbEffect⟩ (1 / 4)).1.get 1).map Slime.pos
        = some ⟨9, 12, 0⟩
      ∧ ((onHitObserver kbWorld ⟨0, 1, kbEffect⟩ (1 / 4)).1.get 1).map Slime.inert
        = some true := by
  obtain ⟨r, hr, hev, hh, hkb, hstun, -⟩ :=
    C3_on_hit_order_of_operations kbWorld ⟨0, 1, kbEffect⟩ (1 / 4)
      (Slime.base ⟨0, 0, 0⟩ .Player)
      ({ Slime.base ⟨3, 4, 0⟩ .Enemy with
           health := some 5, animState := some kbAnim })
      5 kbAnim rfl rfl rfl rfl
  have hns : natSqrt 25 = 5 := by decide
  have hns1 : natSqrt 1 = 1 := by decide
  have hts : Int.toNat 25 = 25 := rfl
  have hq : qSqrt (25 : ℚ) = 5 := by
    rw [qSqrt]
    norm_num [hts, hns, hns1]
  have hd : ({ Slime.base ⟨3, 4, 0⟩ Team.Enemy with
                 health := some 5, animState := some kbAnim }).pos.sub
      (Slime.base ⟨0, 0, 0⟩ Team.Player).pos = (⟨3, 4, 0⟩ : Vec3) := by
    norm_num [Slime.base, Vec3.sub]
  have hL : (({ Slime.base ⟨3, 4, 0⟩ Team.Enemy with
                  health := some 5, animState := some kbAnim }).pos.sub
      (Slime.base ⟨0, 0, 0⟩ Team.Player).pos).length = 5 := by
    rw [hd, Vec3.length]
    norm_num [Vec3.sqLen, hq]
  have hlen : (1 : ℚ) / 100 <
      (({ Slime.base ⟨3, 4, 0⟩ Team.Enemy with
            health := some 5, animState := some kbAnim }).pos.sub
        (Slime.base ⟨0, 0, 0⟩ Team.Player).pos).length := by
    rw [hL]
    norm_num
  have hk := hkb (by norm_num [kbEffect]) hlen
  have hst := hstun
    ⟨by norm_num [kbEffect], by norm_num [kbEffect], by norm_num [kbEffect]⟩
  have hnorm : (({ Slime.base ⟨3, 4, 0⟩ Team.Enemy with
                     health := some 5, animState := some kbAnim }).pos.sub
      (Slime.base ⟨0, 0, 0⟩ Team.Player).pos).normalize
        = (⟨3 / 5, 4 / 5, 0⟩ : Vec3) := by
    rw [Vec3.normalize, hL, hd]
    norm_num [Vec3.smul]
  constructor
  · rw [hr, Option.map_some', hk.1, hnorm]
    norm_num [Slime.base, Vec3.add, kbEffect]
  · rw [hr, Option.map_some', hst.1]

theorem World.get_mem {w : World} {e : EntityId} {s : Slime}
    (h : w.get e = some s) : (e, s) ∈ w := by
  induction w with
  | nil => simp [World.get] at h
  | cons hd tl ih =>
      by_cases hh : hd.1 = e
      · simp only [World.get, if_pos hh] at h
        have h2 : hd.2 = s := Option.some.inj h
        have hpq : hd = (e, s) := Prod.ext hh h2
        rw [hpq]
        exact List.mem_cons_self _ _
      · simp only [World.get, if_neg hh] at h
        exact List.mem_cons_of_mem _ (ih h)

/-- C5 counterexample: The death pipeline fires on the 0-health unit 1 —
it is tagged Dying and switched to its death animation — yet its `Speed`
component survives and unit 0 still holds unit 1 as its `TargetHandle`:
health.rs removes neither. -/
theorem C5_counterexample :
    ((deathPipelineStep [1] deathWorld).get 1).map Slime.dying = some true
      ∧ ((deathPipelineStep [1] deathWorld).get 1).map Slime.animType
        = some (some .EnemySlimeDeath)
      ∧ ((deathPipelineStep [1] deathWorld).get 1).map Slime.speed
        = some (some 125)
      ∧ ((deathPipelineStep [1] deathWorld).get 0).map Slime.target
        = some (some 1) := by
  refine ⟨rfl, rfl, rfl, rfl⟩

/-- C5 amended: When a unit's health has become ≤ 0 (with a `Changed`
health detection) and it is not already Dying, the pipeline tags it Dying and
switches its `AnimationType` to its configured death animation — and nothing
more: its `Speed` component is kept, and no unit's `TargetHandle` (including
the targets pointing at the dying unit) is modified by these systems. -/
theorem C5_death_pipeline_tags_and_animates (changed : List EntityId)
    (w : World) :
    (∀ (e : EntityId) (s : Slime) (h : ℤ) (a₀ d : AnimationType),
      w.get e = some s → e ∈ changed → s.dying = false → s.health = some h →
      h ≤ 0 → s.animType = some a₀ → s.deathAnim = some d →
      (deathPipelineStep changed w).get e
        = some { s with dying := true, animType := some d })
    ∧ (∀ (e' : EntityId) (s' : Slime), w.get e' = some s' →
        ((deathPipelineStep changed w).get e').map Slime.target
            = some s'.target
          ∧ ((deathPipelineStep changed w).get e').map Slime.speed
            = some s'.speed) := by
  constructor
  · intro e s h a₀ d hs hch hdy hh hle ha hd
    have hwd : willDie changed e s = true := by
      simp [willDie, hch, hdy, hh, hle]
    have hadded : e ∈ (w.filter (fun p => willDie changed p.1 p.2)).map Prod.fst := by
      refine List.mem_map.mpr ⟨(e, s), ?_, rfl⟩
      exact List.mem_filter.mpr ⟨World.get_mem hs, hwd⟩
    simp only [deathPipelineStep, whenStartsDyingSystem, setDyingSystem]
    rw [World.mapEntities_get, World.mapEntities_get, hs]
    simp only [Option.map_some', hwd, if_pos, if_true]
    simp [hadded, ha, hd]
  · intro e' s' hs'
    simp only [deathPipelineStep, whenStartsDyingSystem, setDyingSystem]
    rw [World.mapEntities_get, World.mapEntities_get, hs']
    simp only [Option.map_some']
    constructor <;>
      · split_ifs <;>
          first
          | rfl
          | (rcases h1 : s'.animType with _ | a <;>
              rcases h2 : s'.deathAnim with _ | dd <;>
              simp [h1, h2])

theorem minByDist_fold_mem (origin : Vec3) (c : EntityId × Vec3)
    (cs : List (EntityId × Vec3)) :
    cs.foldl
        (fun acc x =>
          if Vec3.sqLen (x.2.sub origin) < Vec3.sqLen (acc.2.sub origin) then x
          else acc)
        c ∈ c :: cs := by
  induction cs generalizing c with
  | nil => simp
  | cons d ds ih =>
      simp only [List.foldl]
      by_cases h : Vec3.sqLen (d.2.sub origin) < Vec3.sqLen (c.2.sub origin)
      · rw [if_pos h]
        rcases List.mem_cons.mp (ih d) with h1 | h1
        · rw [h1]
          exact List.mem_cons_of_mem _ (List.mem_cons_self _ _)
        · exact List.mem_cons_of_mem _ (List.mem_cons_of_mem _ h1)
      · rw [if_neg h]
        rcases List.mem_cons.mp (ih c) with h1 | h1
        · rw [h1]
          exact List.mem_cons_self _ _
        · exact List.mem_cons_of_mem _ (List.mem_cons_of_mem _ h1)

theorem minByDist_fold_le (origin : Vec3) (c : EntityId × Vec3)
    (cs : List (EntityId × Vec3)) :
    ∀ x ∈ c :: cs,
      Vec3.sqLen ((cs.foldl
          (fun acc x =>
            if Vec3.sqLen (x.2.sub origin) < Vec3.sqLen (acc.2.sub origin) then x
            else acc)
          c).2.sub origin) ≤ Vec3.sqLen (x.2.sub origin) := by
  induction cs generalizing c with
  | nil =>
      intro x hx
      simp at hx
      subst hx
      simp [List.foldl]
  | cons d ds ih =>
      intro x hx
      simp only [List.foldl]
      by_cases h : Vec3.sqLen (d.2.sub origin) < Vec3.sqLen (c.2.sub origin)
      · rw [if_pos h]
        rcases List.mem_cons.mp hx with h1 | h1
        · rw [h1]
          exact le_of_lt (lt_of_le_of_lt (ih d d (List.mem_cons_self _ _)) h)
        · rcases List.mem_cons.mp h1 with h2 | h2
          · rw [h2]
            exact ih d d (List.mem_cons_self _ _)
          · exact ih d x (List.mem_cons_of_mem _ h2)
      · rw [if_neg h]
        rcases List.mem_cons.mp hx with h1 | h1
        · rw [h1]
          exact ih c c (List.mem_cons_self _ _)
        · rcases List.mem_cons.mp h1 with h2 | h2
          · rw [h2]
            exact le_trans (ih c c (List.mem_cons_self _ _)) (not_lt.mp h)
          · exact ih c x (List.mem_cons_of_mem _ h2)

theorem minByDist_mem {origin : Vec3} {l : List (EntityId × Vec3)}
    {c : EntityId × Vec3} (h : minByDist origin l = some c) : c ∈ l := by
  cases l with
  | nil => simp [minByDist] at h
  | cons d ds =>
      simp only [minByDist, Option.some.injEq] at h
      rw [← h]
      exact minByDist_fold_mem origin d ds

theorem minByDist_le {origin : Vec3} {l : List (EntityId × Vec3)}
    {c : EntityId × Vec3} (h : minByDist origin l = some c) :
    ∀ x ∈ l, Vec3.sqLen (c.2.sub origin) ≤ Vec3.sqLen (x.2.sub origin) := by
  cases l with
  | nil => simp [minByDist] at h
  | cons d ds =>
      simp only [minByDist, Option.some.injEq] at h
      rw [← h]
      exact minByDist_fold_le origin d ds

theorem Vec3.add_zero' (a : Vec3) : a.add Vec3.zero = a := by
  cases a
  simp [Vec3.add, Vec3.zero]

theorem Vec3.add_assoc' (a b c : Vec3) : (a.add b).add c = a.add (b.add c) := by
  cases a; cases b; cases c
  simp only [Vec3.add, Vec3.mk.injEq]
  refine ⟨by ring, by ring, by ring⟩

theorem Vec3.add_left_comm' (x y z : Vec3) : x.add (y.add z) = y.add (x.add z) := by
  cases x; cases y; cases z
  simp only [Vec3.add, Vec3.mk.injEq]
  refine ⟨by ring, by ring, by ring⟩

theorem Vec3.sqLen_smul (k : ℚ) (v : Vec3) :
    (Vec3.smul k v).sqLen = k ^ 2 * v.sqLen := by
  cases v
  simp only [Vec3.smul, Vec3.sqLen]
  ring

theorem Vec3.sqLen_normalize (v : Vec3) (hex : qSqrt v.sqLen ^ 2 = v.sqLen)
    (h0 : qSqrt v.sqLen ≠ 0) : v.normalize.sqLen = 1 := by
  rw [Vec3.normalize, Vec3.sqLen_smul, Vec3.length]
  field_simp
  linear_combination -hex

theorem Slime.pos_add_zero (s : Slime) :
    ({ s with pos := s.pos.add Vec3.zero } : Slime) = s := by
  rw [Vec3.add_zero']

theorem foldr_add_perm {l₁ l₂ : List Vec3} (h : l₁.Perm l₂) :
    l₁.foldr Vec3.add Vec3.zero = l₂.foldr Vec3.add Vec3.zero := by
  induction h with
  | nil => rfl
  | cons x _ ih => simp only [List.foldr]; rw [ih]
  | swap x y l => simp only [List.foldr]; rw [Vec3.add_left_comm']
  | trans _ _ ih₁ ih₂ => rw [ih₁, ih₂]

theorem sumForces_perm {l₁ l₂ : List (EntityId × Vec3)} (h : l₁.Perm l₂) :
    sumForces l₁ = sumForces l₂ :=
  foldr_add_perm (h.map Prod.snd)

theorem applyPushes_get (w : World) (l : List (EntityId × Vec3)) (e : EntityId) :
    (applyPushes w l).get e
      = (w.get e).map (fun s =>
          { s with pos := s.pos.add (sumForces (l.filter (fun p => p.1 = e))) }) := by
  induction l generalizing w with
  | nil =>
      simp only [applyPushes, List.foldl, List.filter]
      cases hget : w.get e with
      | none => rfl
      | some s => simp [sumForces, Slime.pos_add_zero]
  | cons p l ih =>
      simp only [applyPushes, List.foldl] at ih ⊢
      rw [ih]
      by_cases hp : p.1 = e
      · subst hp
        rw [World.update_get_self]
        cases hget : w.get p.1 with
        | none => rfl
        | some s =>
            simp only [Option.map_some']
            have hf : (p :: l).filter (fun q => q.1 = p.1)
                = p :: l.filter (fun q => q.1 = p.1) := by
              simp [List.filter]
            rw [hf]
            have hs : sumForces (p :: l.filter (fun q => q.1 = p.1))
                = p.2.add (sumForces (l.filter (fun q => q.1 = p.1))) := rfl
            rw [hs, ← Vec3.add_assoc']
      · rw [World.update_get_other (fun hx => hp hx.symm)]
        have hf : (p :: l).filter (fun q => q.1 = e) = l.filter (fun q => q.1 = e) := by
          simp [List.filter, hp]
        rw [hf]

/-- C9: in the separation pass, every close pair contributes exactly the two
pushes `(a, force)` and `(b, -force)` — equal magnitude, opposite direction,
vector sum zero — with `force = direction · (1 − distance/50) · 100 · delta`
(squared magnitude exactly `((1 − distance/50) · 100 · delta)²` when the
modelled square root is exact); all pushes are computed from the position
snapshot and applied afterwards, so the final position of every entity is its
snapshot position plus the sum of its own forces, independent of the order in
which the pushes are enumerated. -/
theorem C9_separation_equal_opposite_snapshot (delta : ℚ) :
    (∀ (w : World), unsmushSystem delta w
      = applyPushes w (pairPushes delta
          ((w.filter (fun p => p.2.hasSprite)).map (fun p => (p.1, p.2.pos)))))
    ∧ (∀ (a b : EntityId) (pa pb : Vec3),
        (⟨pa.x - pb.x, pa.y - pb.y, 0⟩ : Vec3).length < 50 →
        1 / 100 < (⟨pa.x - pb.x, pa.y - pb.y, 0⟩ : Vec3).length →
        pushPair delta a pa b pb
            = [(a, Vec3.smul
                  ((1 - (⟨pa.x - pb.x, pa.y - pb.y, 0⟩ : Vec3).length / 50) * 100 * delta)
                  (⟨pa.x - pb.x, pa.y - pb.y, 0⟩ : Vec3).normalize),
               (b, (Vec3.smul
                  ((1 - (⟨pa.x - pb.x, pa.y - pb.y, 0⟩ : Vec3).length / 50) * 100 * delta)
                  (⟨pa.x - pb.x, pa.y - pb.y, 0⟩ : Vec3).normalize).neg)]
          ∧ (∀ (f : Vec3), f.add f.neg = Vec3.zero)
          ∧ (qSqrt (⟨pa.x - pb.x, pa.y - pb.y, 0⟩ : Vec3).sqLen ^ 2
                = (⟨pa.x - pb.x, pa.y - pb.y, 0⟩ : Vec3).sqLen →
              Vec3.sqLen (Vec3.smul
                  ((1 - (⟨pa.x - pb.x, pa.y - pb.y, 0⟩ : Vec3).length / 50) * 100 * delta)
                  (⟨pa.x - pb.x, pa.y - pb.y, 0⟩ : Vec3).normalize)
                = ((1 - (⟨pa.x - pb.x, pa.y - pb.y, 0⟩ : Vec3).length / 50) * 100 * delta) ^ 2))
    ∧ (∀ (w : World) (l : List (EntityId × Vec3)) (e : EntityId),
        (applyPushes w l).get e
          = (w.get e).map (fun s =>
              { s with pos := s.pos.add (sumForces (l.filter (fun p => p.1 = e))) }))
    ∧ (∀ (w : World) (l₁ l₂ : List (EntityId × Vec3)) (e : EntityId),
        l₁.Perm l₂ → (applyPushes w l₁).get e = (applyPushes w l₂).get e) := by
  refine ⟨fun w => rfl, ?_, applyPushes_get, ?_⟩
  · intro a b pa pb hlt hgt
    refine ⟨?_, ?_, ?_⟩
    · rw [pushPair]
      rw [if_pos ⟨hlt, hgt⟩]
    · intro f
      cases f
      simp [Vec3.add, Vec3.neg, Vec3.zero]
    · intro hex
      have h0 : qSqrt (⟨pa.x - pb.x, pa.y - pb.y, 0⟩ : Vec3).sqLen ≠ 0 := by
        have : (0 : ℚ) < (⟨pa.x - pb.x, pa.y - pb.y, 0⟩ : Vec3).length :=
          lt_trans (by norm_num) hgt
        rw [Vec3.length] at this
        exact ne_of_gt this
      rw [Vec3.sqLen_smul, Vec3.sqLen_normalize _ hex h0, mul_one]
  · intro w l₁ l₂ e hperm
    rw [applyPushes_get, applyPushes_get, sumForces_perm (hperm.filter _)]

/-- Witness for C9: units at (0,0,0) and (18,24,0) are 30 apart; the pair
pushes are (−24,−32,0) on the first and (24,32,0) on the second — squared
magnitude 1600 = ((1 − 30/50)·100·1)² each. -/
theorem C9_separation_equal_opposite_snapshot_witness :
    pushPair 1 0 ⟨0, 0, 0⟩ 1 ⟨18, 24, 0⟩
        = [(0, ⟨-24, -32, 0⟩), (1, ⟨24, 32, 0⟩)]
      ∧ Vec3.sqLen ⟨-24, -32, 0⟩ = 1600 := by
  have hns : natSqrt 900 = 30 := by decide
  have hns1 : natSqrt 1 = 1 := by decide
  have hts : Int.toNat 900 = 900 := rfl
  have hq : qSqrt (900 : ℚ) = 30 := by
    rw [qSqrt]
    norm_num [hts, hns, hns1]
  have hsq : (⟨(0 : ℚ) - 18, (0 : ℚ) - 24, 0⟩ : Vec3).sqLen = 900 := by
    norm_num [Vec3.sqLen]
  have hL : (⟨(0 : ℚ) - 18, (0 : ℚ) - 24, 0⟩ : Vec3).length = 30 := by
    rw [Vec3.length, hsq, hq]
  have hc := (C9_separation_equal_opposite_snapshot 1).2.1 0 1 ⟨0, 0, 0⟩
    ⟨18, 24, 0⟩ (by rw [hL]; norm_num) (by rw [hL]; norm_num)
  have hnorm : (⟨(0 : ℚ) - 18, (0 : ℚ) - 24, 0⟩ : Vec3).normalize
      = (⟨-3 / 5, -4 / 5, 0⟩ : Vec3) := by
    rw [Vec3.normalize, hL]
    norm_num [Vec3.smul]
  constructor
  · rw [hc.1, hL, hnorm]
    norm_num [Vec3.smul, Vec3.neg]
  · norm_num [Vec3.sqLen]

theorem Vec3.add_comm' (a b : Vec3) : a.add b = b.add a := by
  cases a; cases b
  simp only [Vec3.add, Vec3.mk.injEq]
  refine ⟨by ring, by ring, by ring⟩

theorem Vec3.distance_comm (a b : Vec3) : a.distance b = b.distance a := by
  have h : (a.sub b).sqLen = (b.sub a).sqLen := by
    cases a; cases b
    simp only [Vec3.sub, Vec3.sqLen]
    ring
  rw [Vec3.distance, Vec3.distance, Vec3.length, Vec3.length, h]

theorem executeMergeLoop_nil_of_claimed (w : World) (a b : EntityId) :
    ∀ (l : List (EntityId × Slime)) (already : List EntityId),
      a ∈ already → b ∈ already →
      (∀ p ∈ l, p.2.merging.isSome → p.1 = a ∨ p.1 = b) →
      executeMergeLoop w l already = ([], []) := by
  intro l
  induction l with
  | nil => intro already _ _ _; rfl
  | cons p rest ih =>
      intro already ha hb honly
      have hrest : ∀ q ∈ rest, q.2.merging.isSome → q.1 = a ∨ q.1 = b :=
        fun q hq => honly q (List.mem_cons_of_mem _ hq)
      rcases hm : p.2.merging with _ | mg
      · simp only [executeMergeLoop, hm]
        exact ih already ha hb hrest
      · cases hd : p.2.dying with
        | true =>
            simp only [executeMergeLoop, hm, hd]
            exact ih already ha hb hrest
        | false =>
            have hmem : p.1 ∈ already := by
              rcases honly p (List.mem_cons_self _ _) (by rw [hm]; rfl) with h | h
              · rw [h]; exact ha
              · rw [h]; exact hb
            simp only [executeMergeLoop, hm, hd, if_pos hmem]
            exact ih already ha hb hrest

theorem executeMergeLoop_pair (w : World) (a b : EntityId) (sa sb : Slime)
    (mga mgb : Merging)
    (hgb : w.get b = some sb) (hga : w.get a = some sa)
    (hma : sa.merging = some mga) (hmb : sb.merging = some mgb)
    (hpa : mga.partner = b) (hpb : mgb.partner = a)
    (hda : sa.dying = false) (hdb : sb.dying = false)
    (hdist : sa.pos.distance sb.pos ≤ 40)
    (hdist' : sb.pos.distance sa.pos ≤ 40) :
    ∀ (l : List (EntityId × Slime)) (already : List EntityId),
      a ∉ already → b ∉ already →
      (∀ p ∈ l, p.2.merging.isSome → p.1 = a ∨ p.1 = b) →
      (∀ p ∈ l, p.1 = a → p.2 = sa) → (∀ p ∈ l, p.1 = b → p.2 = sb) →
      ((a, sa) ∈ l ∨ (b, sb) ∈ l) →
      executeMergeLoop w l already
          = ([a, b], [mergedSlimeUnit sa.team (Vec3.smul (1 / 2) (sa.pos.add sb.pos))])
        ∨ executeMergeLoop w l already
          = ([b, a], [mergedSlimeUnit sb.team (Vec3.smul (1 / 2) (sb.pos.add sa.pos))]) := by
  intro l
  induction l with
  | nil =>
      intro already _ _ _ _ _ hmem
      rcases hmem with h | h <;> simp at h
  | cons p rest ih =>
      intro already hna hnb honly hva hvb hmem
      have hrestonly : ∀ q ∈ rest, q.2.merging.isSome → q.1 = a ∨ q.1 = b :=
        fun q hq => honly q (List.mem_cons_of_mem _ hq)
      have hrestva : ∀ q ∈ rest, q.1 = a → q.2 = sa :=
        fun q hq => hva q (List.mem_cons_of_mem _ hq)
      have hrestvb : ∀ q ∈ rest, q.1 = b → q.2 = sb :=
        fun q hq => hvb q (List.mem_cons_of_mem _ hq)
      have hqb : mergeQueryGet w b = some sb := by
        simp only [mergeQueryGet, hgb]
        rw [if_pos ⟨by rw [hmb]; rfl, hdb⟩]
      have hqa : mergeQueryGet w a = some sa := by
        simp only [mergeQueryGet, hga]
        rw [if_pos ⟨by rw [hma]; rfl, hda⟩]
      by_cases hpa1 : p.1 = a
      · have hps : p.2 = sa := hva p (List.mem_cons_self _ _) hpa1
        left
        simp only [executeMergeLoop, hps, hma, hda, hpa1, hpa]
        rw [if_neg hna, hqb]
        dsimp only
        rw [if_neg (not_lt.mpr hdist)]
        rw [executeMergeLoop_nil_of_claimed w a b rest (already ++ [a, b])
          (by simp) (by simp) hrestonly]
      · by_cases hpb1 : p.1 = b
        · have hps : p.2 = sb := hvb p (List.mem_cons_self _ _) hpb1
          right
          simp only [executeMergeLoop, hps, hmb, hdb, hpb1, hpb]
          rw [if_neg hnb, hqa]
          dsimp only
          rw [if_neg (not_lt.mpr hdist')]
          rw [executeMergeLoop_nil_of_claimed w a b rest (already ++ [b, a])
            (by simp) (by simp) hrestonly]
        · have hrestmem : (a, sa) ∈ rest ∨ (b, sb) ∈ rest := by
            rcases hmem with h | h
            · rcases List.mem_cons.mp h with h1 | h1
              · exact absurd (congrArg Prod.fst h1.symm) hpa1
              · exact Or.inl h1
            · rcases List.mem_cons.mp h with h1 | h1
              · exact absurd (congrArg Prod.fst h1.symm) hpb1
              · exact Or.inr h1
          have hskip : executeMergeLoop w (p :: rest) already
              = executeMergeLoop w rest already := by
            rcases hm : p.2.merging with _ | mg
            · simp only [executeMergeLoop, hm]
            · rcases (honly p (List.mem_cons_self _ _) (by rw [hm]; rfl)) with h | h
              · exact absurd h hpa1
              · exact absurd h hpb1
          rw [hskip]
          exact ih already hna hnb hrestonly hrestva hrestvb hrestmem

/-- C2: when the execute step fires for a mutual `Merging` pair within the
40-unit execute threshold, its deferred commands despawn exactly the two
partners and spawn exactly one new unit at their midpoint, tagged
`MergedSlime`, with `Health(40)` and a single attack dealing 8 damage; both of
these strictly exceed the partners' health (at most 20, the tank spawn value)
and damage (2, for both spawn functions). -/
theorem C2_merge_execute_two_in_one_out
    (w : World) (a b : EntityId) (sa sb : Slime) (mga mgb : Merging)
    (hab : a ≠ b)
    (hga : w.get a = some sa) (hgb : w.get b = some sb)
    (hmem : (a, sa) ∈ w)
    (hma : sa.merging = some mga) (hmb : sb.merging = some mgb)
    (hpa : mga.partner = b) (hpb : mgb.partner = a)
    (hda : sa.dying = false) (hdb : sb.dying = false)
    (hteam : sa.team = sb.team)
    (hdist : sa.pos.distance sb.pos ≤ 40)
    (honly : ∀ p ∈ w, p.2.merging.isSome → p.1 = a ∨ p.1 = b)
    (hva : ∀ p ∈ w, p.1 = a → p.2 = sa) (hvb : ∀ p ∈ w, p.1 = b → p.2 = sb)
    (hha : ∀ h, sa.health = some h → h ≤ 20)
    (hhb : ∀ h, sb.health = some h → h ≤ 20)
    (hdmga : ∀ l atk, sa.knownAttacks = some l → atk ∈ l →
      atk.onHitEffect.damage ≤ 2)
    (hdmgb : ∀ l atk, sb.knownAttacks = some l → atk ∈ l →
      atk.onHitEffect.damage ≤ 2) :
    ((executeMergeCommands w).1 = [a, b] ∨ (executeMergeCommands w).1 = [b, a])
    ∧ (executeMergeCommands w).2
        = [mergedSlimeUnit sa.team (Vec3.smul (1 / 2) (sa.pos.add sb.pos))]
    ∧ (mergedSlimeUnit sa.team
        (Vec3.smul (1 / 2) (sa.pos.add sb.pos))).mergedSlime = true
    ∧ (mergedSlimeUnit sa.team
        (Vec3.smul (1 / 2) (sa.pos.add sb.pos))).pos
        = Vec3.smul (1 / 2) (sa.pos.add sb.pos)
    ∧ (mergedSlimeUnit sa.team
        (Vec3.smul (1 / 2) (sa.pos.add sb.pos))).health = some 40
    ∧ (∃ atk, (mergedSlimeUnit sa.team
        (Vec3.smul (1 / 2) (sa.pos.add sb.pos))).knownAttacks = some [atk]
        ∧ atk.onHitEffect.damage = 8)
    ∧ (∀ h, sa.health = some h → h < 40)
    ∧ (∀ h, sb.health = some h → h < 40)
    ∧ (∀ l atk, sa.knownAttacks = some l → atk ∈ l → atk.onHitEffect.damage < 8)
    ∧ (∀ l atk, sb.knownAttacks = some l → atk ∈ l → atk.onHitEffect.damage < 8)
    ∧ (∀ (t : Team) (x y : ℚ), (normalSlimeUnit t x y).health = some 10
        ∧ (tankSlimeUnit t x y).health = some 20
        ∧ (∀ l atk, (normalSlimeUnit t x y).knownAttacks = some l → atk ∈ l →
            atk.onHitEffect.damage = 2)
        ∧ (∀ l atk, (tankSlimeUnit t x y).knownAttacks = some l → atk ∈ l →
            atk.onHitEffect.damage = 2)) := by
  have hdist' : sb.pos.distance sa.pos ≤ 40 := by
    rw [Vec3.distance_comm]
    exact hdist
  have hmain := executeMergeLoop_pair w a b sa sb mga mgb hgb hga hma hmb
    hpa hpb hda hdb hdist hdist' w [] (by simp) (by simp) honly hva hvb
    (Or.inl hmem)
  have hspawn_eq :
      mergedSlimeUnit sb.team (Vec3.smul (1 / 2) (sb.pos.add sa.pos))
        = mergedSlimeUnit sa.team (Vec3.smul (1 / 2) (sa.pos.add sb.pos)) := by
    rw [hteam, Vec3.add_comm']
  refine ⟨?_, ?_, rfl, rfl, rfl, ⟨_, rfl, rfl⟩, ?_, ?_, ?_, ?_, ?_⟩
  · rcases hmain with h | h
    · exact Or.inl (congrArg Prod.fst h)
    · exact Or.inr (congrArg Prod.fst h)
  · rcases hmain with h | h
    · exact congrArg Prod.snd h
    · have h2 := congrArg Prod.snd h
      rw [hspawn_eq] at h2
      exact h2
  · intro h hh
    have := hha h hh
    omega
  · intro h hh
    have := hhb h hh
    omega
  · intro l atk hl hm
    have := hdmga l atk hl hm
    omega
  · intro l atk hl hm
    have := hdmgb l atk hl hm
    omega
  · intro t x y
    refine ⟨?_, ?_, ?_, ?_⟩
    · cases t <;> rfl
    · cases t <;> rfl
    · intro l atk hl hm
      cases t <;>
        · simp only [normalSlimeUnit, Option.some.injEq] at hl
          rw [← hl] at hm
          simp only [List.mem_singleton] at hm
          rw [hm]
    · intro l atk hl hm
      cases t <;>
        · simp only [tankSlimeUnit, normalSlimeUnit, Option.some.injEq] at hl
          rw [← hl] at hm
          simp only [List.mem_singleton] at hm
          rw [hm]

/-- C8: in `pick_target_system` as reconstructed from the commented-out insert:
for the `Close` strategy, any chosen target comes from the (at most 3 strong)
random sample of the opposing-team candidates and has minimal distance within
that sample; and if every candidate is on the unit's own team, no choice is
produced, so no `TargetEntity` is inserted — in that situation the whole
system leaves every unit unchanged. -/
theorem C8_close_targeting_min_of_sample
    (sample : List (EntityId × Vec3) → List (EntityId × Vec3))
    (pos : Vec3) (team : Team) (candidates : List (EntityId × Team × Vec3))
    (hsub : ∀ l, sample l ⊆ l)
    (hcard : ∀ l, (sample l).length = min 3 l.length) :
    (∀ t, pickTargetChoice sample pos team candidates = some t →
      ∃ p, p ∈ sample ((candidates.filter (fun c => c.2.1 ≠ team)).map
              (fun c => (c.1, c.2.2))) ∧
        p.1 = t ∧
        p ∈ (candidates.filter (fun c => c.2.1 ≠ team)).map
              (fun c => (c.1, c.2.2)) ∧
        ∀ q ∈ sample ((candidates.filter (fun c => c.2.1 ≠ team)).map
                (fun c => (c.1, c.2.2))),
          Vec3.sqLen (p.2.sub pos) ≤ Vec3.sqLen (q.2.sub pos))
    ∧ ((∀ c ∈ candidates, c.2.1 = team) →
        pickTargetChoice sample pos team candidates = none)
    ∧ (sample ((candidates.filter (fun c => c.2.1 ≠ team)).map
          (fun c => (c.1, c.2.2)))).length ≤ 3
    ∧ (∀ (sampleW : EntityId → List (EntityId × Vec3) → List (EntityId × Vec3))
        (w : World) (e : EntityId),
        (∀ eid l, sampleW eid l ⊆ l) →
        (∀ p ∈ w, ∀ q ∈ w, p.2.team = q.2.team) →
        (pickTargetSystem sampleW w).get e = w.get e) := by
  refine ⟨?_, ?_, ?_, ?_⟩
  · intro t ht
    simp only [pickTargetChoice] at ht
    cases hmin : minByDist pos (sample ((candidates.filter
        (fun c => c.2.1 ≠ team)).map (fun c => (c.1, c.2.2)))) with
    | none => rw [hmin] at ht; simp at ht
    | some p =>
        rw [hmin] at ht
        simp only [Option.map_some', Option.some.injEq] at ht
        refine ⟨p, minByDist_mem hmin, ht, hsub _ (minByDist_mem hmin),
          minByDist_le hmin⟩
  · intro hall
    have hfil : candidates.filter (fun c => c.2.1 ≠ team) = [] := by
      rw [List.filter_eq_nil_iff]
      intro c hc
      simp [hall c hc]
    simp only [pickTargetChoice, hfil, List.map_nil]
    have hemp : sample [] = [] := List.subset_nil.mp (hsub [])
    rw [hemp]
    rfl
  · rw [hcard]
    exact min_le_left _ _
  · intro sampleW w e hsubW hteam
    cases hget : w.get e with
    | none =>
        simp only [pickTargetSystem]
        rw [World.mapEntities_get, hget]
        rfl
    | some s =>
        simp only [pickTargetSystem]
        rw [World.mapEntities_get, hget]
        simp only [Option.map_some']
        have hmem := World.get_mem hget
        have hfil : (w.map (fun p => (p.1, p.2.team, p.2.pos))).filter
            (fun c => c.2.1 ≠ s.team) = [] := by
          rw [List.filter_eq_nil_iff]
          intro c hc
          obtain ⟨p, hp, hcp⟩ := List.mem_map.mp hc
          have : p.2.team = s.team := hteam p hp (e, s) hmem
          rw [← hcp]
          simp [this]
        by_cases hguard : s.strategy.isSome ∧ s.target = none
        · rw [if_pos hguard]
          have hemp : sampleW e [] = [] := List.subset_nil.mp (hsubW e [])
          simp only [pickTargetChoice, hfil, List.map_nil, hemp, minByDist,
            Option.map_none']
        · rw [if_neg hguard]

/-- Witness for C8: with a take-3 sampler and no opposing-team candidate, the
choice is `none` (so nothing is inserted). -/
theorem C8_close_targeting_min_of_sample_witness :
    pickTargetChoice takeSample ⟨0, 0, 0⟩ Team.Player
      [(0, Team.Player, ⟨7, 7, 0⟩)] = none := by
  have hmain := C8_close_targeting_min_of_sample takeSample ⟨0, 0, 0⟩
    Team.Player [(0, Team.Player, ⟨7, 7, 0⟩)]
    (fun l => List.take_subset 3 l)
    (fun l => List.length_take 3 l)
  exact hmain.2.1 (by simp)

/-- C1 theorem (evaluating the code at the failing input): an Inert unit is
still assigned a fresh `TargetHandle` by `pick_target_system` (no
`Without<Inert>` in its query), and the seek pass still moves an Inert unit
toward its target (no `Inert` filter in `move_to_target_system`); only
`pick_attack_system` actually excludes Inert units, whose `ActiveAttack`
stays absent. -/
theorem C1_inert_unit_targeted_and_moved :
    ((pickTargetSystem (fun _ => takeSample) inertTargetWorld).get 0).map
        Slime.target = some (some 1)
      ∧ ((moveToTargetSystem 2 inertMoveWorld).get 0).map Slime.pos
        = some ⟨150, 200, 0⟩
      ∧ inertMover.pos = ⟨0, 0, 0⟩
      ∧ ((pickAttackSystem (fun _ l => l.head?) inertAttackWorld).get 0).map
          Slime.activeAttack = some none := by
  refine ⟨by decide, ?_, rfl, by decide⟩
  have hw : (moveToTargetSystem 2 inertMoveWorld).get 0
      = some (seekMove 2 ⟨33, 44, 0⟩ inertMover) := rfl
  rw [hw, Option.map_some']
  have hns : natSqrt 3025 = 55 := by decide
  have hns1 : natSqrt 1 = 1 := by decide
  have hts : Int.toNat 3025 = 3025 := rfl
  have hq : qSqrt (3025 : ℚ) = 55 := by
    rw [qSqrt]
    norm_num [hts, hns, hns1]
  have hp : inertMover.pos = ⟨0, 0, 0⟩ := rfl
  have hdiff : (⟨33, 44, 0⟩ : Vec3).sub ⟨0, 0, 0⟩ = ⟨33, 44, 0⟩ := by
    norm_num [Vec3.sub]
  have hL : ((⟨33, 44, 0⟩ : Vec3).sub ⟨0, 0, 0⟩).length = 55 := by
    rw [hdiff, Vec3.length]
    norm_num [Vec3.sqLen, hq]
  have hnorm : ((⟨33, 44, 0⟩ : Vec3).sub ⟨0, 0, 0⟩).normalize
      = (⟨3 / 5, 4 / 5, 0⟩ : Vec3) := by
    rw [Vec3.normalize, hL, hdiff]
    norm_num [Vec3.smul]
  simp only [seekMove, hp, hL, hnorm]
  rw [if_pos (by norm_num)]
  norm_num [Vec3.add, Vec3.smul]

/-- Witness for C5: applying the amended theorem on the concrete death world:
unit 1 is tagged dying with its death animation and keeps the rest of its
components. -/
theorem C5_death_pipeline_tags_and_animates_witness :
    (deathPipelineStep [1] deathWorld).get 1
      = some { Slime.base ⟨60, 0, 0⟩ .Enemy with
                 health := some 0,
                 speed := some 125,
                 animType := some .EnemySlimeDeath,
                 deathAnim := some .EnemySlimeDeath,
                 dying := true } := by
  have := (C5_death_pipeline_tags_and_animates [1] deathWorld).1 1
    ({ Slime.base ⟨60, 0, 0⟩ .Enemy with
         health := some 0,
         speed := some 125,
         animType := some .EnemySlimeMoveSmallJump,
         deathAnim := some .EnemySlimeDeath })
    0 .EnemySlimeMoveSmallJump .EnemySlimeDeath rfl (by decide) rfl rfl
    (by decide) rfl rfl
  simpa using this

theorem World.mapEntities_keys (f : EntityId → Slime → Slime) (w : World) :
    (World.mapEntities f w).map Prod.fst = w.map Prod.fst := by
  induction w with
  | nil => rfl
  | cons hd tl ih =>
      simp only [World.mapEntities, List.map_cons] at ih ⊢
      rw [ih]

theorem World.get_of_mem_nodup {w : World} {e : EntityId} {s : Slime}
    (hnd : (w.map Prod.fst).Nodup) (h : (e, s) ∈ w) : w.get e = some s := by
  induction w with
  | nil => simp at h
  | cons hd tl ih =>
      simp only [List.map_cons, List.nodup_cons] at hnd
      rcases List.mem_cons.mp h with h1 | h1
      · rw [← h1]
        simp [World.get]
      · have hne : hd.1 ≠ e := by
          intro hx
          exact hnd.1 (hx ▸ List.mem_map.mpr ⟨(e, s), h1, rfl⟩)
        simp only [World.get, if_neg hne]
        exact ih hnd.2 h1

theorem checkMergePairStep_const (roll : EntityId → EntityId → ℚ)
    (a : EntityId) (ta : Team) (pa : Vec3)
    (acc : List (EntityId × EntityId × Vec3) × List EntityId)
    (q : EntityId × Team × Vec3) (h : a ∈ acc.2) :
    checkMergePairStep roll a ta pa acc q = acc := by
  unfold checkMergePairStep
  split_ifs with h1 h2 h3 h4
  · rfl
  · rfl
  · rfl
  · rfl
  · exact absurd (Or.inl h) h2

theorem foldl_step_const (roll : EntityId → EntityId → ℚ) (a : EntityId)
    (ta : Team) (pa : Vec3) :
    ∀ (rest : List (EntityId × Team × Vec3))
      (acc : List (EntityId × EntityId × Vec3) × List EntityId), a ∈ acc.2 →
      rest.foldl (checkMergePairStep roll a ta pa) acc = acc := by
  intro rest
  induction rest with
  | nil => intro acc _; rfl
  | cons q rest ih =>
      intro acc h
      simp only [List.foldl, checkMergePairStep_const roll a ta pa acc q h]
      exact ih acc h

theorem checkMergePairStep_cases (roll : EntityId → EntityId → ℚ)
    (a : EntityId) (ta : Team) (pa : Vec3)
    (acc : List (EntityId × EntityId × Vec3) × List EntityId)
    (q : EntityId × Team × Vec3) :
    checkMergePairStep roll a ta pa acc q = acc
    ∨ (a ∉ acc.2 ∧ q.1 ∉ acc.2 ∧
        checkMergePairStep roll a ta pa acc q
          = (acc.1 ++ [(a, q.1, Vec3.smul (1 / 2) (pa.add q.2.2))],
             acc.2 ++ [a, q.1])) := by
  unfold checkMergePairStep
  split_ifs with h1 h2 h3 h4
  · exact Or.inl rfl
  · exact Or.inl rfl
  · exact Or.inl rfl
  · exact Or.inl rfl
  · push_neg at h2
    exact Or.inr ⟨h2.1, h2.2, rfl⟩

theorem checkMergeInner_shape (roll : EntityId → EntityId → ℚ) (a : EntityId)
    (ta : Team) (pa : Vec3) :
    ∀ (rest : List (EntityId × Team × Vec3)) (paired : List EntityId),
      a ∉ rest.map (fun c => c.1) →
      rest.foldl (checkMergePairStep roll a ta pa) ([], paired) = ([], paired)
      ∨ ∃ b mp, b ∈ rest.map (fun c => c.1) ∧ a ∉ paired ∧ b ∉ paired ∧ b ≠ a ∧
          rest.foldl (checkMergePairStep roll a ta pa) ([], paired)
            = ([(a, b, mp)], paired ++ [a, b]) := by
  intro rest
  induction rest with
  | nil => intro paired _; exact Or.inl rfl
  | cons q rest ih =>
      intro paired hna
      simp only [List.map_cons, List.mem_cons, not_or] at hna
      obtain ⟨hnaq, hnarest⟩ := hna
      simp only [List.foldl]
      rcases checkMergePairStep_cases roll a ta pa ([], paired) q with
        hc | ⟨hh1, hh2, hc⟩
      · rw [hc]
        rcases ih paired hnarest with h | ⟨b, mp, hb, h2, h3, h4, h⟩
        · exact Or.inl h
        · refine Or.inr ⟨b, mp, ?_, h2, h3, h4, h⟩
          simp only [List.map_cons, List.mem_cons]
          exact Or.inr hb
      · rw [hc]
        rw [foldl_step_const roll a ta pa rest _ (by simp)]
        refine Or.inr ⟨q.1, _, ?_, hh1, hh2, ?_, rfl⟩
        · simp
        · exact fun h => hnaq h.symm

theorem checkMergeLoop_spec (roll : EntityId → EntityId → ℚ) :
    ∀ (cands : List (EntityId × Team × Vec3)) (paired : List EntityId),
      (cands.map (fun c => c.1)).Nodup → paired.Nodup →
      (paired ++ pairEndpoints (checkMergeLoop roll cands paired)).Nodup
      ∧ ∀ p ∈ checkMergeLoop roll cands paired,
          p.1 ≠ p.2.1 ∧ p.1 ∈ cands.map (fun c => c.1)
          ∧ p.2.1 ∈ cands.map (fun c => c.1) := by
  intro cands
  induction cands with
  | nil =>
      intro paired _ hp
      constructor
      · simpa [checkMergeLoop, pairEndpoints] using hp
      · intro p hp2
        simp [checkMergeLoop] at hp2
  | cons c rest ih =>
      intro paired hnd hp
      simp only [List.map_cons, List.nodup_cons] at hnd
      obtain ⟨hc1, hcrest⟩ := hnd
      simp only [checkMergeLoop]
      rcases checkMergeInner_shape roll c.1 c.2.1 c.2.2 rest paired hc1 with
        h | ⟨b, mp, hb, hpa, hpb, hba, h⟩
      · rw [h]
        obtain ⟨ha, hm⟩ := ih paired hcrest hp
        constructor
        · simpa using ha
        · intro p hp2
          simp only [List.nil_append] at hp2
          obtain ⟨x1, x2, x3⟩ := hm p hp2
          refine ⟨x1, ?_, ?_⟩
          · simp only [List.map_cons, List.mem_cons]
            exact Or.inr x2
          · simp only [List.map_cons, List.mem_cons]
            exact Or.inr x3
      · rw [h]
        have hp' : (paired ++ [c.1, b]).Nodup := by
          rw [List.nodup_append]
          refine ⟨hp, ?_, ?_⟩
          · simp [List.nodup_cons, hba]
            exact fun hx => hba hx.symm
          · intro x hx
            simp only [List.mem_cons, List.mem_singleton, List.not_mem_nil]
            rintro (h1 | h1 | h1)
            · exact hpa (h1 ▸ hx)
            · exact hpb (h1 ▸ hx)
            · exact h1.elim
        obtain ⟨ha, hm⟩ := ih (paired ++ [c.1, b]) hcrest hp'
        constructor
        · simp only [pairEndpoints, List.flatMap_cons] at *
          simpa [List.append_assoc] using ha
        · intro p hp2
          rcases List.mem_cons.mp hp2 with h1 | h1
          · rw [h1]
            refine ⟨fun hh => hba hh.symm, ?_, ?_⟩
            · simp
            · simp only [List.map_cons, List.mem_cons]
              exact Or.inr hb
          · obtain ⟨x1, x2, x3⟩ := hm p h1
            refine ⟨x1, ?_, ?_⟩
            · simp only [List.map_cons, List.mem_cons]
              exact Or.inr x2
            · simp only [List.map_cons, List.mem_cons]
              exact Or.inr x3

theorem applyPreMergePair_get_other (w : World)
    (pr : EntityId × EntityId × Vec3) (e : EntityId)
    (h1 : e ≠ pr.1) (h2 : e ≠ pr.2.1) :
    (applyPreMergePair w pr).get e = w.get e := by
  unfold applyPreMergePair
  rw [World.update_get_other h2, World.update_get_other h1]

theorem applyPreMergePair_get_left (w : World)
    (pr : EntityId × EntityId × Vec3) (hne : pr.1 ≠ pr.2.1) :
    (applyPreMergePair w pr).get pr.1
      = (w.get pr.1).map (fun s =>
          { s with preMerging := some ⟨Timer.fromSeconds (3 / 2), pr.2.1, pr.2.2⟩,
                   target := none }) := by
  unfold applyPreMergePair
  rw [World.update_get_other hne, World.update_get_self]

theorem applyPreMergePair_get_right (w : World)
    (pr : EntityId × EntityId × Vec3) (hne : pr.1 ≠ pr.2.1) :
    (applyPreMergePair w pr).get pr.2.1
      = (w.get pr.2.1).map (fun s =>
          { s with preMerging := some ⟨Timer.fromSeconds (3 / 2), pr.1, pr.2.2⟩,
                   target := none }) := by
  unfold applyPreMergePair
  rw [World.update_get_self, World.update_get_other (fun hx => hne hx.symm)]

theorem applyPairs_untouched (pairs : List (EntityId × EntityId × Vec3)) :
    ∀ (w : World) (e : EntityId), e ∉ pairEndpoints pairs →
      (pairs.foldl applyPreMergePair w).get e = w.get e := by
  induction pairs with
  | nil => intro w e _; rfl
  | cons pr rest ih =>
      intro w e he
      simp only [pairEndpoints, List.flatMap_cons, List.mem_append,
        List.mem_cons, List.mem_singleton, not_or, List.not_mem_nil] at he
      obtain ⟨⟨h1, h2, -⟩, h3⟩ := he
      simp only [List.foldl]
      rw [ih (applyPreMergePair w pr) e h3,
        applyPreMergePair_get_other w pr e h1 h2]

theorem applyPairs_endpoint (pairs : List (EntityId × EntityId × Vec3)) :
    ∀ (w : World) (pr : EntityId × EntityId × Vec3),
      (pairEndpoints pairs).Nodup → pr ∈ pairs →
      ((pairs.foldl applyPreMergePair w).get pr.1
          = (w.get pr.1).map (fun s =>
              { s with preMerging := some ⟨Timer.fromSeconds (3 / 2), pr.2.1, pr.2.2⟩,
                       target := none }))
      ∧ ((pairs.foldl applyPreMergePair w).get pr.2.1
          = (w.get pr.2.1).map (fun s =>
              { s with preMerging := some ⟨Timer.fromSeconds (3 / 2), pr.1, pr.2.2⟩,
                       target := none })) := by
  induction pairs with
  | nil =>
      intro w pr _ hmem
      simp at hmem
  | cons hd rest ih =>
      intro w pr hnd hmem
      have hnd' : pairEndpoints (hd :: rest)
          = hd.1 :: hd.2.1 :: pairEndpoints rest := rfl
      rw [hnd'] at hnd
      simp only [List.nodup_cons, List.mem_cons, not_or] at hnd
      obtain ⟨⟨hh0, hh1⟩, hh2, hh3⟩ := hnd
      simp only [List.foldl]
      rcases List.mem_cons.mp hmem with h1 | h1
      · subst h1
        constructor
        · rw [applyPairs_untouched rest _ pr.1 hh1,
            applyPreMergePair_get_left w pr hh0]
        · rw [applyPairs_untouched rest _ pr.2.1 hh2,
            applyPreMergePair_get_right w pr hh0]
      · have hin1 : pr.1 ∈ pairEndpoints rest := by
          simp only [pairEndpoints, List.mem_flatMap]
          exact ⟨pr, h1, by simp⟩
        have hin2 : pr.2.1 ∈ pairEndpoints rest := by
          simp only [pairEndpoints, List.mem_flatMap]
          exact ⟨pr, h1, by simp⟩
        have hx1 : pr.1 ≠ hd.1 := fun hx => hh1 (hx ▸ hin1)
        have hx2 : pr.1 ≠ hd.2.1 := fun hx => hh2 (hx ▸ hin1)
        have hy1 : pr.2.1 ≠ hd.1 := fun hx => hh1 (hx ▸ hin2)
        have hy2 : pr.2.1 ≠ hd.2.1 := fun hx => hh2 (hx ▸ hin2)
        obtain ⟨ihl, ihr⟩ := ih (applyPreMergePair w hd) pr hh3 h1
        constructor
        · rw [ihl, applyPreMergePair_get_other w hd pr.1 hx1 hx2]
        · rw [ihr, applyPreMergePair_get_other w hd pr.2.1 hy1 hy2]

theorem mergeEligible_fields {s : Slime} (h : mergeEligible s = true) :
    s.dying = false ∧ s.preMerging = none ∧ s.merging = none := by
  unfold mergeEligible at h
  refine ⟨?_, ?_, ?_⟩ <;>
  · revert h
    cases s.dying <;> cases hpm : s.preMerging <;> cases hmg : s.merging <;>
      simp [hpm, hmg]

theorem checkMergeApply_preserves_symm (roll : EntityId → EntityId → ℚ)
    (w : World) (hnd : (w.map Prod.fst).Nodup) (hsymm : MergeSymm w) :
    MergeSymm ((checkMergeLoop roll
      ((w.filter (fun p => mergeEligible p.2)).map
        (fun p => (p.1, p.2.team, p.2.pos))) []).foldl applyPreMergePair w) := by
  set cands := (w.filter (fun p => mergeEligible p.2)).map
    (fun p => (p.1, p.2.team, p.2.pos)) with hcands
  set pairs := checkMergeLoop roll cands [] with hpairs
  have hkeys : cands.map (fun c => c.1)
      = (w.filter (fun p => mergeEligible p.2)).map Prod.fst := by
    rw [hcands, List.map_map]
    rfl
  have hcnd : (cands.map (fun c => c.1)).Nodup := by
    rw [hkeys]
    exact List.Nodup.sublist (List.Sublist.map _ (List.filter_sublist _)) hnd
  obtain ⟨hendnd', hmempairs⟩ := checkMergeLoop_spec roll cands [] hcnd
    List.nodup_nil
  have hend : (pairEndpoints pairs).Nodup := by simpa using hendnd'
  have hcand_elig : ∀ x ∈ cands.map (fun c => c.1),
      ∃ sx, w.get x = some sx ∧ mergeEligible sx = true := by
    intro x hx
    rw [hkeys] at hx
    obtain ⟨p, hpmem, hpx⟩ := List.mem_map.mp hx
    have hf := List.mem_filter.mp hpmem
    exact ⟨p.2, by rw [← hpx]; exact World.get_of_mem_nodup hnd hf.1, hf.2⟩
  have hend_elig : ∀ x ∈ pairEndpoints pairs,
      ∃ sx, w.get x = some sx ∧ mergeEligible sx = true := by
    intro x hx
    simp only [pairEndpoints, List.mem_flatMap, List.mem_cons,
      List.mem_singleton, List.not_mem_nil, or_false] at hx
    obtain ⟨pr, hprmem, hxpr⟩ := hx
    obtain ⟨-, hm1, hm2⟩ := hmempairs pr hprmem
    rcases hxpr with h | h
    · exact hcand_elig x (h ▸ hm1)
    · exact hcand_elig x (h ▸ hm2)
  intro e s hget hdy
  by_cases he : e ∈ pairEndpoints pairs
  · simp only [pairEndpoints, List.mem_flatMap, List.mem_cons,
      List.mem_singleton, List.not_mem_nil, or_false] at he
    obtain ⟨pr, hprmem, hepr⟩ := he
    obtain ⟨hprne, hpr1, hpr2⟩ := hmempairs pr hprmem
    obtain ⟨hl, hr⟩ := applyPairs_endpoint pairs w pr hend hprmem
    rcases hepr with he1 | he1
    · subst he1
      rw [hl] at hget
      obtain ⟨s0, hs0, hs⟩ : ∃ s0, w.get pr.1 = some s0
          ∧ s = { s0 with
                    preMerging := some ⟨Timer.fromSeconds (3 / 2), pr.2.1, pr.2.2⟩,
                    target := none } := by
        cases hx : w.get pr.1 with
        | none => rw [hx] at hget; simp at hget
        | some s0 =>
            rw [hx] at hget
            exact ⟨s0, rfl, (Option.some.inj hget).symm⟩
      obtain ⟨sE, hsE, heligE⟩ := hcand_elig pr.1 hpr1
      rw [hs0] at hsE
      obtain rfl : sE = s0 := Option.some.inj hsE.symm
      obtain ⟨hd0, hp0, hm0⟩ := mergeEligible_fields heligE
      refine ⟨?_, ?_, ?_⟩
      · rw [hs]
        simp [hm0]
      · intro pm hpm
        rw [hs] at hpm
        simp only [Option.some.injEq] at hpm
        obtain rfl := hpm.symm
        refine ⟨fun hx => hprne hx.symm, ?_⟩
        obtain ⟨sP, hsP, heligP⟩ := hcand_elig pr.2.1 hpr2
        refine ⟨{ sP with
                    preMerging := some ⟨Timer.fromSeconds (3 / 2), pr.1, pr.2.2⟩,
                    target := none }, ?_, Or.inr ⟨_, rfl, rfl⟩⟩
        rw [hr, hsP]
        rfl
      · intro mg hmg
        rw [hs] at hmg
        simp only at hmg
        rw [hm0] at hmg
        exact absurd hmg (by simp)
    · subst he1
      rw [hr] at hget
      obtain ⟨s0, hs0, hs⟩ : ∃ s0, w.get pr.2.1 = some s0
          ∧ s = { s0 with
                    preMerging := some ⟨Timer.fromSeconds (3 / 2), pr.1, pr.2.2⟩,
                    target := none } := by
        cases hx : w.get pr.2.1 with
        | none => rw [hx] at hget; simp at hget
        | some s0 =>
            rw [hx] at hget
            exact ⟨s0, rfl, (Option.some.inj hget).symm⟩
      obtain ⟨sE, hsE, heligE⟩ := hcand_elig pr.2.1 hpr2
      rw [hs0] at hsE
      obtain rfl : sE = s0 := Option.some.inj hsE.symm
      obtain ⟨hd0, hp0, hm0⟩ := mergeEligible_fields heligE
      refine ⟨?_, ?_, ?_⟩
      · rw [hs]
        simp [hm0]
      · intro pm hpm
        rw [hs] at hpm
        simp only [Option.some.injEq] at hpm
        obtain rfl := hpm.symm
        refine ⟨hprne, ?_⟩
        obtain ⟨sP, hsP, heligP⟩ := hcand_elig pr.1 hpr1
        refine ⟨{ sP with
                    preMerging := some ⟨Timer.fromSeconds (3 / 2), pr.2.1, pr.2.2⟩,
                    target := none }, ?_, Or.inr ⟨_, rfl, rfl⟩⟩
        rw [hl, hsP]
        rfl
      · intro mg hmg
        rw [hs] at hmg
        simp only at hmg
        rw [hm0] at hmg
        exact absurd hmg (by simp)
  · rw [applyPairs_untouched pairs w e he] at hget
    obtain ⟨hexcl, hpmc, hmgc⟩ := hsymm e s hget hdy
    refine ⟨hexcl, ?_, ?_⟩
    · intro pm hpm
      obtain ⟨hne, sP, hsP, hdisj⟩ := hpmc pm hpm
      by_cases hPend : pm.partner ∈ pairEndpoints pairs
      · obtain ⟨sE, hsE, helig⟩ := hend_elig _ hPend
        rw [hsP] at hsE
        obtain rfl : sE = sP := Option.some.inj hsE.symm
        obtain ⟨hdP, hpP, hmP⟩ := mergeEligible_fields helig
        rcases hdisj with h | ⟨pm', hpm', -⟩
        · rw [hdP] at h
          exact absurd h (by simp)
        · rw [hpP] at hpm'
          exact absurd hpm' (by simp)
      · exact ⟨hne, sP, by
          rw [applyPairs_untouched pairs w _ hPend]
          exact hsP, hdisj⟩
    · intro mg hmg
      obtain ⟨hne, sP, hsP, hdisj⟩ := hmgc mg hmg
      by_cases hPend : mg.partner ∈ pairEndpoints pairs
      · obtain ⟨sE, hsE, helig⟩ := hend_elig _ hPend
        rw [hsP] at hsE
        obtain rfl : sE = sP := Option.some.inj hsE.symm
        obtain ⟨hdP, hpP, hmP⟩ := mergeEligible_fields helig
        rcases hdisj with h | ⟨mg', hmg', -⟩
        · rw [hdP] at h
          exact absurd h (by simp)
        · rw [hmP] at hmg'
          exact absurd hmg' (by simp)
      · exact ⟨hne, sP, by
          rw [applyPairs_untouched pairs w _ hPend]
          exact hsP, hdisj⟩

theorem preMergeTick_fields (delta : ℚ) (w : World) (e : EntityId) :
    ((preMergeTick delta w).get e = none ∧ w.get e = none)
    ∨ ∃ s, w.get e = some s ∧ ∃ s', (preMergeTick delta w).get e = some s'
        ∧ s'.dying = s.dying ∧ s'.merging = s.merging
        ∧ s'.preMerging.map PreMerging.partner
            = s.preMerging.map PreMerging.partner
        ∧ s'.preMerging.isSome = s.preMerging.isSome := by
  rw [preMergeTick, World.mapEntities_get]
  cases hx : w.get e with
  | none => exact Or.inl ⟨rfl, rfl⟩
  | some s =>
      refine Or.inr ⟨s, rfl, _, rfl, ?_, ?_, ?_, ?_⟩ <;>
        · by_cases hd : s.dying
          · simp [hd]
          · rcases hpm : s.preMerging with _ | pm <;> simp [hd, hpm]

theorem preMergeTick_symm (delta : ℚ) (w : World) (hsymm : MergeSymm w) :
    MergeSymm (preMergeTick delta w) := by
  intro e s' hget' hdy'
  rcases preMergeTick_fields delta w e with ⟨h1, h2⟩ |
    ⟨s, hs, s'', hget'', hfd, hfm, hfp, hfi⟩
  · rw [h1] at hget'
    exact absurd hget' (by simp)
  · rw [hget''] at hget'
    obtain rfl : s'' = s' := Option.some.inj hget'
    have hdy : s.dying = false := by rw [← hfd]; exact hdy'
    obtain ⟨hexcl, hpmc, hmgc⟩ := hsymm e s hs hdy
    refine ⟨?_, ?_, ?_⟩
    · rw [hfi, hfm]
      exact hexcl
    · intro pm' hpm'
      have hmap := hfp
      rw [hpm'] at hmap
      cases hpm : s.preMerging with
      | none =>
          rw [hpm] at hmap
          simp at hmap
      | some pm =>
          rw [hpm] at hmap
          simp only [Option.map_some', Option.some.injEq] at hmap
          obtain ⟨hne, sP, hsP, hdisj⟩ := hpmc pm hpm
          rcases preMergeTick_fields delta w pm.partner with ⟨hh1, hh2⟩ |
            ⟨sq, hsq, sq', hgq', hqd, hqm, hqp, hqi⟩
          · rw [hsP] at hh2
            exact absurd hh2 (by simp)
          · rw [hsP] at hsq
            obtain rfl : sq = sP := Option.some.inj hsq.symm
            refine ⟨by rw [hmap]; exact hne, sq', by rw [hmap]; exact hgq', ?_⟩
            rcases hdisj with h | ⟨pmq, hpmq, hpq⟩
            · exact Or.inl (by rw [hqd]; exact h)
            · right
              have hqp' := hqp
              rw [hpmq] at hqp'
              cases hq : sq'.preMerging with
              | none =>
                  rw [hq] at hqp'
                  simp at hqp'
              | some pmq' =>
                  rw [hq] at hqp'
                  simp only [Option.map_some', Option.some.injEq] at hqp'
                  exact ⟨pmq', rfl, by rw [hqp']; exact hpq⟩
    · intro mg hmg
      rw [hfm] at hmg
      obtain ⟨hne, sP, hsP, hdisj⟩ := hmgc mg hmg
      rcases preMergeTick_fields delta w mg.partner with ⟨hh1, hh2⟩ |
        ⟨sq, hsq, sq', hgq', hqd, hqm, hqp, hqi⟩
      · rw [hsP] at hh2
        exact absurd hh2 (by simp)
      · rw [hsP] at hsq
        obtain rfl : sq = sP := Option.some.inj hsq.symm
        refine ⟨hne, sq', hgq', ?_⟩
        rcases hdisj with h | ⟨mgq, hmgq, hpq⟩
        · exact Or.inl (by rw [hqd]; exact h)
        · exact Or.inr ⟨mgq, by rw [hqm]; exact hmgq, hpq⟩

theorem foldl_applyCmd_get (cmds : List Cmd) :
    ∀ (w : World) (X : EntityId),
      (cmds.foldl applyCmd w).get X
        = (w.get X).map (fun s =>
            (cmds.filter (fun c => c.target = X)).foldl applyCmdSlime s) := by
  induction cmds with
  | nil =>
      intro w X
      cases hx : w.get X <;> simp [List.filter, hx]
  | cons c rest ih =>
      intro w X
      simp only [List.foldl]
      rw [ih]
      by_cases hc : c.target = X
      · rw [applyCmd, hc, World.update_get_self]
        cases hx : w.get X with
        | none => simp
        | some s => simp [List.filter, hc]
      · rw [applyCmd, World.update_get_other (fun hx => hc hx.symm)]
        cases hx : w.get X with
        | none => simp
        | some s => simp [List.filter, hc]

theorem foldCmd_dying (cmds : List Cmd) :
    ∀ s : Slime, (cmds.foldl applyCmdSlime s).dying = s.dying := by
  induction cmds with
  | nil => intro s; rfl
  | cons c rest ih =>
      intro s
      simp only [List.foldl]
      rw [ih]
      cases c <;> rfl

theorem foldCmd_pm_of_no_remove (cmds : List Cmd) :
    ∀ s : Slime, (∀ e, Cmd.removePreMerging e ∉ cmds) →
      (cmds.foldl applyCmdSlime s).preMerging = s.preMerging := by
  induction cmds with
  | nil => intro s _; rfl
  | cons c rest ih =>
      intro s h
      simp only [List.foldl]
      have hrest : ∀ e, Cmd.removePreMerging e ∉ rest := fun e hm =>
        h e (List.mem_cons_of_mem _ hm)
      cases c with
      | removePreMerging e => exact absurd (List.mem_cons_self _ _) (h e)
      | insertMerging e m => rw [ih _ hrest]; rfl
      | insertAnimState e a => rw [ih _ hrest]; rfl

theorem foldCmd_pm_of_remove (cmds : List Cmd) :
    ∀ s : Slime, (∃ e, Cmd.removePreMerging e ∈ cmds) →
      (cmds.foldl applyCmdSlime s).preMerging = none := by
  induction cmds with
  | nil =>
      intro s h
      obtain ⟨e, he⟩ := h
      simp at he
  | cons c rest ih =>
      intro s h
      simp only [List.foldl]
      by_cases hr : ∃ e', Cmd.removePreMerging e' ∈ rest
      · exact ih _ hr
      · push_neg at hr
        obtain ⟨e, he⟩ := h
        rcases List.mem_cons.mp he with h1 | h1
        · rw [foldCmd_pm_of_no_remove rest _ hr, ← h1]; rfl
        · exact absurd h1 (hr e)

theorem foldCmd_mg_of_no_insert (cmds : List Cmd) :
    ∀ s : Slime, (∀ e m, Cmd.insertMerging e m ∉ cmds) →
      (cmds.foldl applyCmdSlime s).merging = s.merging := by
  induction cmds with
  | nil => intro s _; rfl
  | cons c rest ih =>
      intro s h
      simp only [List.foldl]
      have hrest : ∀ e m, Cmd.insertMerging e m ∉ rest := fun e m hm =>
        h e m (List.mem_cons_of_mem _ hm)
      cases c with
      | removePreMerging e => rw [ih _ hrest]; rfl
      | insertMerging e m => exact absurd (List.mem_cons_self _ _) (h e m)
      | insertAnimState e a => rw [ih _ hrest]; rfl

theorem foldCmd_mg_partner (cmds : List Cmd) (P : EntityId) :
    ∀ s : Slime, (∀ e m, Cmd.insertMerging e m ∈ cmds → m.partner = P) →
      (∃ e m, Cmd.insertMerging e m ∈ cmds) →
      ∃ m', (cmds.foldl applyCmdSlime s).merging = some m' ∧ m'.partner = P := by
  induction cmds with
  | nil =>
      intro s _ h
      obtain ⟨e, m, he⟩ := h
      simp at he
  | cons c rest ih =>
      intro s hall h
      simp only [List.foldl]
      have hallrest : ∀ e m, Cmd.insertMerging e m ∈ rest → m.partner = P :=
        fun e m hm => hall e m (List.mem_cons_of_mem _ hm)
      by_cases hr : ∃ e m, Cmd.insertMerging e m ∈ rest
      · exact ih _ hallrest hr
      · push_neg at hr
        obtain ⟨e, m, he⟩ := h
        rcases List.mem_cons.mp he with h1 | h1
        · refine ⟨m, ?_, hall e m he⟩
          rw [foldCmd_mg_of_no_insert rest _ hr, ← h1]; rfl
        · exact absurd h1 (hr e m)

theorem mem_filter_target {cmds : List Cmd} {X : EntityId} {c : Cmd} :
    c ∈ cmds.filter (fun d => d.target = X) ↔ c ∈ cmds ∧ c.target = X := by
  rw [List.mem_filter]
  simp

theorem preMergeBlock_dying {tf : Nat} {w : World} {e : EntityId} {s : Slime}
    (hd : s.dying = true) : preMergeBlock tf w e s = [] := by
  simp [preMergeBlock, hd]

theorem preMergeBlock_noPm {tf : Nat} {w : World} {e : EntityId} {s : Slime}
    (hd : s.dying = false) (hpm : s.preMerging = none) :
    preMergeBlock tf w e s = [] := by
  simp [preMergeBlock, hd, hpm]

theorem preMergeBlock_partnerGone {tf : Nat} {w : World} {e : EntityId}
    {s : Slime} {pm : PreMerging} (hd : s.dying = false)
    (hpm : s.preMerging = some pm) (hg : w.get pm.partner = none) :
    preMergeBlock tf w e s = [Cmd.removePreMerging e] := by
  simp [preMergeBlock, hd, hpm, hg]

theorem preMergeBlock_partnerDying {tf : Nat} {w : World} {e : EntityId}
    {s : Slime} {pm : PreMerging} {ps : Slime} (hd : s.dying = false)
    (hpm : s.preMerging = some pm) (hg : w.get pm.partner = some ps)
    (hpd : ps.dying = true) :
    preMergeBlock tf w e s = [Cmd.removePreMerging e] := by
  simp [preMergeBlock, hd, hpm, hg, hpd]

theorem preMergeBlock_waiting {tf : Nat} {w : World} {e : EntityId}
    {s : Slime} {pm : PreMerging} {ps : Slime} (hd : s.dying = false)
    (hpm : s.preMerging = some pm) (hg : w.get pm.partner = some ps)
    (hpd : ps.dying = false) (hf : pm.timer.finished = false) :
    preMergeBlock tf w e s = [] := by
  simp [preMergeBlock, hd, hpm, hg, hpd, hf]

theorem preMergeBlock_fire {tf : Nat} {w : World} {e : EntityId}
    {s : Slime} {pm : PreMerging} {ps : Slime} (hd : s.dying = false)
    (hpm : s.preMerging = some pm) (hg : w.get pm.partner = some ps)
    (hpd : ps.dying = false) (hf : pm.timer.finished = true) :
    preMergeBlock tf w e s
      = [Cmd.insertAnimState e (AnimationState.new (1 / 10) tf true),
         Cmd.insertAnimState pm.partner (AnimationState.new (1 / 10) tf true),
         Cmd.removePreMerging e,
         Cmd.insertMerging e ⟨pm.partner, pm.meetingPoint⟩,
         Cmd.removePreMerging pm.partner,
         Cmd.insertMerging pm.partner ⟨e, pm.meetingPoint⟩] := by
  simp [preMergeBlock, hd, hpm, hg, hpd, hf]

theorem preMergeBlock_inv {tf : Nat} {w : World} {e : EntityId} {s : Slime}
    {c : Cmd} (h : c ∈ preMergeBlock tf w e s) :
    s.dying = false ∧ ∃ pm, s.preMerging = some pm ∧
      (((∀ ps, w.get pm.partner = some ps → ps.dying = true)
          ∧ c = Cmd.removePreMerging e)
       ∨ ((∃ ps, w.get pm.partner = some ps ∧ ps.dying = false)
          ∧ pm.timer.finished = true
          ∧ (c = Cmd.insertAnimState e (AnimationState.new (1 / 10) tf true)
             ∨ c = Cmd.insertAnimState pm.partner
                 (AnimationState.new (1 / 10) tf true)
             ∨ c = Cmd.removePreMerging e
             ∨ c = Cmd.insertMerging e ⟨pm.partner, pm.meetingPoint⟩
             ∨ c = Cmd.removePreMerging pm.partner
             ∨ c = Cmd.insertMerging pm.partner ⟨e, pm.meetingPoint⟩))) := by
  cases hd : s.dying with
  | true =>
      rw [preMergeBlock_dying hd] at h
      simp at h
  | false =>
      refine ⟨rfl, ?_⟩
      cases hpm : s.preMerging with
      | none =>
          rw [preMergeBlock_noPm hd hpm] at h
          simp at h
      | some pm =>
          refine ⟨pm, rfl, ?_⟩
          cases hg : w.get pm.partner with
          | none =>
              rw [preMergeBlock_partnerGone hd hpm hg] at h
              simp only [List.mem_singleton] at h
              exact Or.inl ⟨fun ps hps => Option.noConfusion hps, h⟩
          | some ps =>
              cases hpd : ps.dying with
              | true =>
                  rw [preMergeBlock_partnerDying hd hpm hg hpd] at h
                  simp only [List.mem_singleton] at h
                  exact Or.inl
                    ⟨fun ps' hps' => (Option.some.inj hps') ▸ hpd, h⟩
              | false =>
                  cases hf : pm.timer.finished with
                  | false =>
                      rw [preMergeBlock_waiting hd hpm hg hpd hf] at h
                      simp at h
                  | true =>
                      rw [preMergeBlock_fire hd hpm hg hpd hf] at h
                      refine Or.inr ⟨⟨ps, rfl, hpd⟩, rfl, ?_⟩
                      simpa using h

theorem preMergeCommands_insert_inv {tf : Nat} {w₁ : World}
    (hnd : (w₁.map Prod.fst).Nodup) (hsymm : MergeSymm w₁)
    {X : EntityId} {m : Merging}
    (hc : Cmd.insertMerging X m ∈ preMergeCommands tf w₁) :
    ∃ s₀ pm₀, w₁.get X = some s₀ ∧ s₀.dying = false
      ∧ s₀.preMerging = some pm₀ ∧ m.partner = pm₀.partner
      ∧ Cmd.removePreMerging X ∈ preMergeCommands tf w₁
      ∧ ∃ mp', Cmd.insertMerging pm₀.partner ⟨X, mp'⟩
          ∈ preMergeCommands tf w₁ := by
  rw [preMergeCommands, List.mem_flatMap] at hc
  obtain ⟨p, hpmem, hblk⟩ := hc
  have hgetp : w₁.get p.1 = some p.2 := World.get_of_mem_nodup hnd hpmem
  have hmem_of : ∀ c, c ∈ preMergeBlock tf w₁ p.1 p.2 →
      c ∈ preMergeCommands tf w₁ := by
    intro c hcb
    rw [preMergeCommands, List.mem_flatMap]
    exact ⟨p, hpmem, hcb⟩
  obtain ⟨hdp, pm, hpmp, hcase⟩ := preMergeBlock_inv hblk
  rcases hcase with ⟨hdead, hform⟩ | ⟨⟨ps, hg, hpd⟩, hfin, hforms⟩
  · exact absurd hform (by simp)
  · rcases hforms with h | h | h | h | h | h
    · exact absurd h (by simp)
    · exact absurd h (by simp)
    · exact absurd h (by simp)
    · have hX : X = p.1 ∧ m = (⟨pm.partner, pm.meetingPoint⟩ : Merging) := by
        simpa using h
      obtain ⟨hX1, hX2⟩ := hX
      subst hX1
      refine ⟨p.2, pm, hgetp, hdp, hpmp, by rw [hX2], ?_, pm.meetingPoint, ?_⟩
      · apply hmem_of
        rw [preMergeBlock_fire hdp hpmp hg hpd hfin]
        simp
      · apply hmem_of
        rw [preMergeBlock_fire hdp hpmp hg hpd hfin]
        simp
    · exact absurd h (by simp)
    · have hX : X = pm.partner ∧ m = (⟨p.1, pm.meetingPoint⟩ : Merging) := by
        simpa using h
      obtain ⟨hX1, hX2⟩ := hX
      obtain ⟨-, hpmc, -⟩ := hsymm p.1 p.2 hgetp hdp
      obtain ⟨hne, s', hs', hdisj⟩ := hpmc pm hpmp
      have heq : s' = ps := by
        rw [hg] at hs'
        exact (Option.some.inj hs').symm
      rcases hdisj with hdy | ⟨pm', hpm', hback⟩
      · rw [heq] at hdy
        rw [hdy] at hpd
        exact Bool.noConfusion hpd
      · rw [heq] at hpm'
        refine ⟨ps, pm', ?_, hpd, hpm', ?_, ?_, pm.meetingPoint, ?_⟩
        · rw [hX1]
          exact hg
        · rw [hX2]
          exact hback.symm
        · apply hmem_of
          rw [preMergeBlock_fire hdp hpmp hg hpd hfin, hX1]
          simp
        · apply hmem_of
          rw [preMergeBlock_fire hdp hpmp hg hpd hfin, hback, hX1]
          simp

theorem preMergeCommands_remove_inv {tf : Nat} {w₁ : World}
    (hnd : (w₁.map Prod.fst).Nodup) (hsymm : MergeSymm w₁)
    {X : EntityId}
    (hc : Cmd.removePreMerging X ∈ preMergeCommands tf w₁) :
    ∃ s₀ pm₀, w₁.get X = some s₀ ∧ s₀.dying = false
      ∧ s₀.preMerging = some pm₀
      ∧ ((∃ m, Cmd.insertMerging X m ∈ preMergeCommands tf w₁)
         ∨ (∀ ps, w₁.get pm₀.partner = some ps → ps.dying = true)) := by
  rw [preMergeCommands, List.mem_flatMap] at hc
  obtain ⟨p, hpmem, hblk⟩ := hc
  have hgetp : w₁.get p.1 = some p.2 := World.get_of_mem_nodup hnd hpmem
  have hmem_of : ∀ c, c ∈ preMergeBlock tf w₁ p.1 p.2 →
      c ∈ preMergeCommands tf w₁ := by
    intro c hcb
    rw [preMergeCommands, List.mem_flatMap]
    exact ⟨p, hpmem, hcb⟩
  obtain ⟨hdp, pm, hpmp, hcase⟩ := preMergeBlock_inv hblk
  rcases hcase with ⟨hdead, hform⟩ | ⟨⟨ps, hg, hpd⟩, hfin, hforms⟩
  · have hX : X = p.1 := by simpa using hform
    subst hX
    exact ⟨p.2, pm, hgetp, hdp, hpmp, Or.inr hdead⟩
  · rcases hforms with h | h | h | h | h | h
    · exact absurd h (by simp)
    · exact absurd h (by simp)
    · have hX : X = p.1 := by simpa using h
      subst hX
      refine ⟨p.2, pm, hgetp, hdp, hpmp,
        Or.inl ⟨⟨pm.partner, pm.meetingPoint⟩, ?_⟩⟩
      apply hmem_of
      rw [preMergeBlock_fire hdp hpmp hg hpd hfin]
      simp
    · exact absurd h (by simp)
    · have hX : X = pm.partner := by simpa using h
      obtain ⟨-, hpmc, -⟩ := hsymm p.1 p.2 hgetp hdp
      obtain ⟨hne, s', hs', hdisj⟩ := hpmc pm hpmp
      have heq : s' = ps := by
        rw [hg] at hs'
        exact (Option.some.inj hs').symm
      rcases hdisj with hdy | ⟨pm', hpm', hback⟩
      · rw [heq] at hdy
        rw [hdy] at hpd
        exact Bool.noConfusion hpd
      · rw [heq] at hpm'
        refine ⟨ps, pm', by rw [hX]; exact hg, hpd, hpm',
          Or.inl ⟨⟨p.1, pm.meetingPoint⟩, ?_⟩⟩
        apply hmem_of
        rw [preMergeBlock_fire hdp hpmp hg hpd hfin, hX]
        simp
    · exact absurd h (by simp)

theorem preMergeApply_preserves_symm (tf : Nat) (w₁ : World)
    (hnd₁ : (w₁.map Prod.fst).Nodup) (hsymm₁ : MergeSymm w₁) :
    MergeSymm ((preMergeCommands tf w₁).foldl applyCmd w₁) := by
  intro X sX hgetX hdyX
  rw [foldl_applyCmd_get] at hgetX
  cases hs₀ : w₁.get X with
  | none =>
      rw [hs₀] at hgetX
      exact Option.noConfusion hgetX
  | some s₀ =>
      rw [hs₀] at hgetX
      simp only [Option.map_some'] at hgetX
      obtain rfl := Option.some.inj hgetX
      rw [foldCmd_dying] at hdyX
      obtain ⟨hexcl₀, hpmc₀, hmgc₀⟩ := hsymm₁ X s₀ hs₀ hdyX
      by_cases hins : ∃ m, Cmd.insertMerging X m ∈ preMergeCommands tf w₁
      · -- X is merged this frame: PreMerging removed, mutual Merging inserted
        obtain ⟨m, hm⟩ := hins
        obtain ⟨s₀', pm₀, hs₀', hdy₀', hpm₀, hmp, hrm, mp', hinsP⟩ :=
          preMergeCommands_insert_inv hnd₁ hsymm₁ hm
        have hseq : s₀ = s₀' := Option.some.inj (hs₀.symm.trans hs₀')
        subst hseq
        have hremX : Cmd.removePreMerging X
            ∈ (preMergeCommands tf w₁).filter (fun d => d.target = X) :=
          mem_filter_target.mpr ⟨hrm, rfl⟩
        have hpmX := foldCmd_pm_of_remove
          ((preMergeCommands tf w₁).filter (fun d => d.target = X)) s₀
          ⟨X, hremX⟩
        have hallP : ∀ e m', Cmd.insertMerging e m'
            ∈ (preMergeCommands tf w₁).filter (fun d => d.target = X) →
            m'.partner = pm₀.partner := by
          intro e m' hmem
          obtain ⟨hmemc, htg⟩ := mem_filter_target.mp hmem
          have he : X = e := htg.symm
          subst he
          obtain ⟨s₁', pm₁', hs₁', -, hpm₁', hmp₁', -, -⟩ :=
            preMergeCommands_insert_inv hnd₁ hsymm₁ hmemc
          have h1 : s₀ = s₁' := Option.some.inj (hs₀.symm.trans hs₁')
          subst h1
          have h2 : pm₀ = pm₁' := Option.some.inj (hpm₀.symm.trans hpm₁')
          subst h2
          exact hmp₁'
        have hexX : ∃ e m', Cmd.insertMerging e m'
            ∈ (preMergeCommands tf w₁).filter (fun d => d.target = X) :=
          ⟨X, m, mem_filter_target.mpr ⟨hm, rfl⟩⟩
        obtain ⟨m', hmgX, hm'P⟩ := foldCmd_mg_partner
          ((preMergeCommands tf w₁).filter (fun d => d.target = X))
          pm₀.partner s₀ hallP hexX
        obtain ⟨hPX, sP', hsP', hdisjP⟩ := hpmc₀ pm₀ hpm₀
        -- partner side: its own PreMerging points back and it is merged too
        obtain ⟨sP₂, pmP, hsP₂, hdyP, hpmP, hmpP, -, -⟩ :=
          preMergeCommands_insert_inv hnd₁ hsymm₁ hinsP
        have hXP : X = pmP.partner := hmpP
        have hallX : ∀ e m', Cmd.insertMerging e m'
            ∈ (preMergeCommands tf w₁).filter
                (fun d => d.target = pm₀.partner) →
            m'.partner = X := by
          intro e m' hmem
          obtain ⟨hmemc, htg⟩ := mem_filter_target.mp hmem
          have he : e = pm₀.partner := htg
          subst he
          obtain ⟨s₃, pm₃, hs₃, -, hpm₃, hmp₃, -, -⟩ :=
            preMergeCommands_insert_inv hnd₁ hsymm₁ hmemc
          have h1 : sP₂ = s₃ := Option.some.inj (hsP₂.symm.trans hs₃)
          subst h1
          have h2 : pmP = pm₃ := Option.some.inj (hpmP.symm.trans hpm₃)
          subst h2
          rw [hmp₃]
          exact hXP.symm
        have hexP : ∃ e m', Cmd.insertMerging e m'
            ∈ (preMergeCommands tf w₁).filter
                (fun d => d.target = pm₀.partner) :=
          ⟨pm₀.partner, ⟨X, mp'⟩, mem_filter_target.mpr ⟨hinsP, rfl⟩⟩
        obtain ⟨mP, hmgP, hmPX⟩ := foldCmd_mg_partner
          ((preMergeCommands tf w₁).filter (fun d => d.target = pm₀.partner))
          X sP₂ hallX hexP
        have hgetP : ((preMergeCommands tf w₁).foldl applyCmd w₁).get
            pm₀.partner = some
              (((preMergeCommands tf w₁).filter
                  (fun d => d.target = pm₀.partner)).foldl
                applyCmdSlime sP₂) := by
          rw [foldl_applyCmd_get, hsP₂, Option.map_some']
        refine ⟨?_, ?_, ?_⟩
        · rw [hpmX]
          simp
        · intro pm hpm
          rw [hpmX] at hpm
          exact Option.noConfusion hpm
        · intro mg hmg
          rw [hmgX] at hmg
          obtain rfl := Option.some.inj hmg
          rw [hm'P]
          exact ⟨hPX, _, hgetP, Or.inr ⟨mP, hmgP, hmPX⟩⟩
      · -- no merge fires for X: Merging untouched, PreMerging kept or cancelled
        push_neg at hins
        have hnoinsF : ∀ e m, Cmd.insertMerging e m
            ∉ (preMergeCommands tf w₁).filter (fun d => d.target = X) := by
          intro e m hmem
          obtain ⟨hmemc, htg⟩ := mem_filter_target.mp hmem
          have he : X = e := htg.symm
          subst he
          exact hins m hmemc
        have hmgX := foldCmd_mg_of_no_insert
          ((preMergeCommands tf w₁).filter (fun d => d.target = X)) s₀ hnoinsF
        by_cases hrem : ∃ e, Cmd.removePreMerging e
            ∈ (preMergeCommands tf w₁).filter (fun d => d.target = X)
        · -- cancelled: X ends with neither tag
          obtain ⟨e, hre⟩ := hrem
          obtain ⟨hrec, htg⟩ := mem_filter_target.mp hre
          have he : X = e := htg.symm
          subst he
          obtain ⟨s₀', pm₀, hs₀', -, hpm₀', -⟩ :=
            preMergeCommands_remove_inv hnd₁ hsymm₁ hrec
          have h1 : s₀ = s₀' := Option.some.inj (hs₀.symm.trans hs₀')
          subst h1
          have hpmX := foldCmd_pm_of_remove
            ((preMergeCommands tf w₁).filter (fun d => d.target = X)) s₀
            ⟨X, hre⟩
          have hmg0 : s₀.merging = none := by
            cases hq : s₀.merging with
            | none => rfl
            | some mg0 =>
                exact absurd ⟨by rw [hpm₀']; rfl, by rw [hq]; rfl⟩ hexcl₀
          refine ⟨?_, ?_, ?_⟩
          · rw [hpmX]
            simp
          · intro pm hpm
            rw [hpmX] at hpm
            exact Option.noConfusion hpm
          · intro mg hmg
            rw [hmgX, hmg0] at hmg
            exact Option.noConfusion hmg
        · -- untouched: both tags carried over, partners still lawful
          push_neg at hrem
          have hpmX := foldCmd_pm_of_no_remove
            ((preMergeCommands tf w₁).filter (fun d => d.target = X)) s₀ hrem
          refine ⟨?_, ?_, ?_⟩
          · rw [hpmX, hmgX]
            exact hexcl₀
          · intro pm hpm
            rw [hpmX] at hpm
            obtain ⟨hne, sP, hsP, hdisj⟩ := hpmc₀ pm hpm
            have hgetP : ((preMergeCommands tf w₁).foldl applyCmd w₁).get
                pm.partner = some
                  (((preMergeCommands tf w₁).filter
                      (fun d => d.target = pm.partner)).foldl
                    applyCmdSlime sP) := by
              rw [foldl_applyCmd_get, hsP, Option.map_some']
            refine ⟨hne, _, hgetP, ?_⟩
            rcases hdisj with hdyP | ⟨pmP, hpmP, hback⟩
            · left
              rw [foldCmd_dying]
              exact hdyP
            · have hnoremP : ∀ e, Cmd.removePreMerging e
                  ∉ (preMergeCommands tf w₁).filter
                      (fun d => d.target = pm.partner) := by
                intro e hmem
                obtain ⟨hmemc, htg⟩ := mem_filter_target.mp hmem
                have he : e = pm.partner := htg
                subst he
                obtain ⟨sP', pmP', hsP'', -, hpmP'', hdisj2⟩ :=
                  preMergeCommands_remove_inv hnd₁ hsymm₁ hmemc
                have h1 : sP = sP' := Option.some.inj (hsP.symm.trans hsP'')
                subst h1
                have h2 : pmP = pmP' :=
                  Option.some.inj (hpmP.symm.trans hpmP'')
                subst h2
                rcases hdisj2 with ⟨mI, hmI⟩ | hdead
                · obtain ⟨s₃, pm₃, hs₃, -, hpm₃, -, -, mp₃, hins₃⟩ :=
                    preMergeCommands_insert_inv hnd₁ hsymm₁ hmI
                  have h3 : sP = s₃ := Option.some.inj (hsP.symm.trans hs₃)
                  subst h3
                  have h4 : pmP = pm₃ :=
                    Option.some.inj (hpmP.symm.trans hpm₃)
                  subst h4
                  rw [hback] at hins₃
                  exact hins _ hins₃
                · have hXdy := hdead s₀ (by rw [hback]; exact hs₀)
                  rw [hdyX] at hXdy
                  exact Bool.noConfusion hXdy
              right
              refine ⟨pmP, ?_, hback⟩
              rw [foldCmd_pm_of_no_remove _ _ hnoremP]
              exact hpmP
          · intro mg hmg
            rw [hmgX] at hmg
            obtain ⟨hne, sP, hsP, hdisj⟩ := hmgc₀ mg hmg
            have hgetP : ((preMergeCommands tf w₁).foldl applyCmd w₁).get
                mg.partner = some
                  (((preMergeCommands tf w₁).filter
                      (fun d => d.target = mg.partner)).foldl
                    applyCmdSlime sP) := by
              rw [foldl_applyCmd_get, hsP, Option.map_some']
            refine ⟨hne, _, hgetP, ?_⟩
            rcases hdisj with hdyP | ⟨mgP, hmgP, hback⟩
            · left
              rw [foldCmd_dying]
              exact hdyP
            · have hnoinsP : ∀ e m', Cmd.insertMerging e m'
                  ∉ (preMergeCommands tf w₁).filter
                      (fun d => d.target = mg.partner) := by
                intro e m' hmem
                obtain ⟨hmemc, htg⟩ := mem_filter_target.mp hmem
                have he : e = mg.partner := htg
                subst he
                obtain ⟨s₃, pm₃, hs₃, hdy₃, hpm₃, -, -, -⟩ :=
                  preMergeCommands_insert_inv hnd₁ hsymm₁ hmemc
                have h3 : sP = s₃ := Option.some.inj (hsP.symm.trans hs₃)
                subst h3
                obtain ⟨hexclP, -, -⟩ := hsymm₁ mg.partner sP hsP hdy₃
                exact hexclP ⟨by rw [hpm₃]; rfl, by rw [hmgP]; rfl⟩
              right
              refine ⟨mgP, ?_, hback⟩
              rw [foldCmd_mg_of_no_insert _ _ hnoinsP]
              exact hmgP

theorem preMergeSystem_preserves_symm (tf : Nat) (delta : ℚ) (w : World)
    (hnd : (w.map Prod.fst).Nodup) (hsymm : MergeSymm w) :
    MergeSymm (preMergeSystem tf delta w) := by
  have hnd₁ : ((preMergeTick delta w).map Prod.fst).Nodup := by
    rw [preMergeTick, World.mapEntities_keys]
    exact hnd
  exact preMergeApply_preserves_symm tf (preMergeTick delta w) hnd₁
    (preMergeTick_symm delta w hsymm)

theorem mergePairWorld_symm : MergeSymm mergePairWorld := by
  intro e s hget hdy
  by_cases h0 : e = 0
  · subst h0
    have hs : s = mergeSlimeA := (Option.some.inj
      ((show mergePairWorld.get 0 = some mergeSlimeA from rfl).symm.trans
        hget)).symm
    subst hs
    refine ⟨by decide, ?_, ?_⟩
    · intro pm hpm
      have hn : mergeSlimeA.preMerging = none := rfl
      rw [hn] at hpm
      exact Option.noConfusion hpm
    · intro mg hmg
      have hmg' : mg = ⟨1, ⟨5, 0, 0⟩⟩ := (Option.some.inj
        ((show mergeSlimeA.merging = some ⟨1, ⟨5, 0, 0⟩⟩ from rfl).symm.trans
          hmg)).symm
      subst hmg'
      exact ⟨by decide, mergeSlimeB, rfl, Or.inr ⟨⟨0, ⟨5, 0, 0⟩⟩, rfl, rfl⟩⟩
  · by_cases h1 : e = 1
    · subst h1
      have hs : s = mergeSlimeB := (Option.some.inj
        ((show mergePairWorld.get 1 = some mergeSlimeB from rfl).symm.trans
          hget)).symm
      subst hs
      refine ⟨by decide, ?_, ?_⟩
      · intro pm hpm
        have hn : mergeSlimeB.preMerging = none := rfl
        rw [hn] at hpm
        exact Option.noConfusion hpm
      · intro mg hmg
        have hmg' : mg = ⟨0, ⟨5, 0, 0⟩⟩ := (Option.some.inj
          ((show mergeSlimeB.merging = some ⟨0, ⟨5, 0, 0⟩⟩ from rfl).symm.trans
            hmg)).symm
        subst hmg'
        exact ⟨by decide, mergeSlimeA, rfl, Or.inr ⟨⟨1, ⟨5, 0, 0⟩⟩, rfl, rfl⟩⟩
    · exfalso
      have hnone : mergePairWorld.get e = none := by
        show World.get [(0, mergeSlimeA), (1, mergeSlimeB)] e = none
        simp only [World.get]
        rw [if_neg (fun h => h0 h.symm), if_neg (fun h => h1 h.symm)]
      rw [hnone] at hget
      exact Option.noConfusion hget

/-- C6: both merge-pairing systems preserve the partner-symmetry invariant on
worlds with unique entity ids. After `check_merge_system` (any timer state,
any random draws) and after `pre_merge_system` (any animation frame count and
frame delta), every live non-dying unit still carries at most one of
`PreMerging`/`Merging`, and its partner field names a different, existing
unit that either points straight back with the matching component or is
already dying (the transient window the cancellation branch cleans up). -/
theorem C6_merge_partner_symmetry (roll : EntityId → EntityId → ℚ)
    (timer : Timer) (tf : Nat) (delta : ℚ) (w : World)
    (hnd : (w.map Prod.fst).Nodup) (hsymm : MergeSymm w) :
    MergeSymm (checkMergeSystem roll timer delta w).2
    ∧ MergeSymm (preMergeSystem tf delta w) := by
  constructor
  · simp only [checkMergeSystem]
    by_cases hfire : timer.duration ≤ timer.elapsed + delta
    · rw [if_pos hfire]
      exact checkMergeApply_preserves_symm roll w hnd hsymm
    · rw [if_neg hfire]
      exact hsymm
  · exact preMergeSystem_preserves_symm tf delta w hnd hsymm

/-- Witness for C6: the mutual merging pair world has unique ids and satisfies
the invariant, and both systems keep it satisfied on that world. -/
theorem C6_merge_partner_symmetry_witness :
    (mergePairWorld.map Prod.fst).Nodup ∧ MergeSymm mergePairWorld
    ∧ (MergeSymm (checkMergeSystem (fun _ _ => 1) (Timer.fromSeconds 1) 1
          mergePairWorld).2
       ∧ MergeSymm (preMergeSystem 7 1 mergePairWorld)) :=
  ⟨by decide, mergePairWorld_symm,
    C6_merge_partner_symmetry (fun _ _ => 1) (Timer.fromSeconds 1) 7 1
      mergePairWorld (by decide) mergePairWorld_symm⟩

/-- Witness for C2: executing the concrete 10-units-apart merging pair
despawns exactly units 0 and 1 and spawns exactly the merged slime at their
midpoint (5, 0, 0). -/
theorem C2_merge_execute_two_in_one_out_witness :
    ((executeMergeCommands mergePairWorld).1 = [0, 1]
        ∨ (executeMergeCommands mergePairWorld).1 = [1, 0])
      ∧ (executeMergeCommands mergePairWorld).2
        = [mergedSlimeUnit Team.Player
             (Vec3.smul (1 / 2) (mergeSlimeA.pos.add mergeSlimeB.pos))] := by
  have hns : natSqrt 100 = 10 := by decide
  have hns1 : natSqrt 1 = 1 := by decide
  have hts : Int.toNat 100 = 100 := rfl
  have hq : qSqrt (100 : ℚ) = 10 := by
    rw [qSqrt]
    norm_num [hts, hns, hns1]
  have hdist : mergeSlimeA.pos.distance mergeSlimeB.pos ≤ 40 := by
    rw [show mergeSlimeA.pos = (⟨0, 0, 0⟩ : Vec3) from rfl,
      show mergeSlimeB.pos = (⟨10, 0, 0⟩ : Vec3) from rfl,
      Vec3.distance, Vec3.length]
    norm_num [Vec3.sub, Vec3.sqLen, hq]
  have hmain := C2_merge_execute_two_in_one_out mergePairWorld 0 1
    mergeSlimeA mergeSlimeB
    { partner := 1, meetingPoint := ⟨5, 0, 0⟩ }
    { partner := 0, meetingPoint := ⟨5, 0, 0⟩ }
    (by decide) rfl rfl (by decide) rfl rfl rfl rfl rfl rfl rfl hdist
    (by decide) (by decide) (by decide)
    (fun h hx => by
      have hx' : some (10 : ℤ) = some h := hx
      have := Option.some.inj hx'
      omega)
    (fun h hx => by
      have hx' : some (10 : ℤ) = some h := hx
      have := Option.some.inj hx'
      omega)
    (fun l atk hl hm => by
      have hl2 : (normalSlimeUnit Team.Player 0 0).knownAttacks = some l := hl
      simp only [normalSlimeUnit, Option.some.injEq] at hl2
      rw [← hl2] at hm
      simp only [List.mem_singleton] at hm
      rw [hm])
    (fun l atk hl hm => by
      have hl2 : (normalSlimeUnit Team.Player 10 0).knownAttacks = some l := hl
      simp only [normalSlimeUnit, Option.some.injEq] at hl2
      rw [← hl2] at hm
      simp only [List.mem_singleton] at hm
      rw [hm])
  exact ⟨hmain.1, hmain.2.1⟩

end Gamble
